import Mathlib

/-!
Shallow embedding of the `rhdl` hardware-kernel compiler core, covering the
fragments exercised by the verified claims: the `TypedBits` value model and its
dynamic bit manipulation (`types/typed_bits.rs`, `dyn_bit_manip.rs`), the RHIF
virtual machine (`rhif/vm.rs`), the mux-removal and symbol-table-completeness
passes (`compiler/passes/remove_unneeded_muxes.rs`,
`compiler/rhif_passes/symbol_table_is_complete.rs`), and the clock-coherence
check and literal-defaulting stages of type inference (`compiler/mir/infer.rs`).

Definitions are translated from the repository sources.  A few leaf
declarations (`Kind`, `Color`, `Slot`, `OpCode`, `Object`, the unification
store) live in files that are not part of the source tree; those are modelled
from the specification and from their uses in the present sources, and each
such definition is marked `Modelled from the spec:` in its doc comment.

Bit vectors are little-endian `List Bool`, exactly as in the Rust code
(`Vec<bool>` with index 0 the least significant bit).
-/

namespace RHDL

/-- Modelled from the spec: `Color` (`types/domain.rs`, absent from the source
tree) is "an opaque clock-domain tag (an enumerated palette of named
domains)".  The claims only distinguish two concrete domains (Red and Green);
the palette is the rainbow used by the crate. -/
inductive Color where
  | red
  | orange
  | yellow
  | green
  | blue
  | indigo
  | violet
deriving DecidableEq

/-- Modelled from the spec: `Kind` (`types/kind.rs`, absent from the source
tree) is "the semantic type of a value — unsigned bits of width N, signed bits
of width N, tuple, ..., the unit type, or a Signal wrapper that tags any other
Kind with a clock-domain Color".  The struct, enum and array constructors are
not needed by any claim and are omitted from the embedded fragment; `tuple`
stands in for the composite kinds. -/
inductive Kind where
  | bits (n : Nat)
  | signed (n : Nat)
  | tuple (elements : List Kind)
  | empty
  | signal (base : Kind) (color : Color)

mutual

/-- Decidable equality for `Kind` (spelled out because `deriving` does not
support the nested `List Kind` payload). -/
def Kind.decEq : (a b : Kind) → Decidable (a = b)
  | .bits m, .bits n =>
      match Nat.decEq m n with
      | .isTrue h => .isTrue (h ▸ rfl)
      | .isFalse h => .isFalse (fun hh => h (Kind.bits.inj hh))
  | .signed m, .signed n =>
      match Nat.decEq m n with
      | .isTrue h => .isTrue (h ▸ rfl)
      | .isFalse h => .isFalse (fun hh => h (Kind.signed.inj hh))
  | .tuple es, .tuple fs =>
      match Kind.decEqList es fs with
      | .isTrue h => .isTrue (h ▸ rfl)
      | .isFalse h => .isFalse (fun hh => h (Kind.tuple.inj hh))
  | .empty, .empty => .isTrue rfl
  | .signal a c, .signal b d =>
      match Kind.decEq a b, instDecidableEqColor c d with
      | .isTrue h1, .isTrue h2 => .isTrue (by rw [h1, h2])
      | .isFalse h1, _ => .isFalse (fun hh => h1 (Kind.signal.inj hh).1)
      | _, .isFalse h2 => .isFalse (fun hh => h2 (Kind.signal.inj hh).2)
  | .bits _, .signed _ => .isFalse (fun h => Kind.noConfusion h)
  | .bits _, .tuple _ => .isFalse (fun h => Kind.noConfusion h)
  | .bits _, .empty => .isFalse (fun h => Kind.noConfusion h)
  | .bits _, .signal _ _ => .isFalse (fun h => Kind.noConfusion h)
  | .signed _, .bits _ => .isFalse (fun h => Kind.noConfusion h)
  | .signed _, .tuple _ => .isFalse (fun h => Kind.noConfusion h)
  | .signed _, .empty => .isFalse (fun h => Kind.noConfusion h)
  | .signed _, .signal _ _ => .isFalse (fun h => Kind.noConfusion h)
  | .tuple _, .bits _ => .isFalse (fun h => Kind.noConfusion h)
  | .tuple _, .signed _ => .isFalse (fun h => Kind.noConfusion h)
  | .tuple _, .empty => .isFalse (fun h => Kind.noConfusion h)
  | .tuple _, .signal _ _ => .isFalse (fun h => Kind.noConfusion h)
  | .empty, .bits _ => .isFalse (fun h => Kind.noConfusion h)
  | .empty, .signed _ => .isFalse (fun h => Kind.noConfusion h)
  | .empty, .tuple _ => .isFalse (fun h => Kind.noConfusion h)
  | .empty, .signal _ _ => .isFalse (fun h => Kind.noConfusion h)
  | .signal _ _, .bits _ => .isFalse (fun h => Kind.noConfusion h)
  | .signal _ _, .signed _ => .isFalse (fun h => Kind.noConfusion h)
  | .signal _ _, .tuple _ => .isFalse (fun h => Kind.noConfusion h)
  | .signal _ _, .empty => .isFalse (fun h => Kind.noConfusion h)

/-- Decidable equality for lists of `Kind` (helper for `Kind.decEq`). -/
def Kind.decEqList : (a b : List Kind) → Decidable (a = b)
  | [], [] => .isTrue rfl
  | [], _ :: _ => .isFalse (fun h => List.noConfusion h)
  | _ :: _, [] => .isFalse (fun h => List.noConfusion h)
  | x :: xs, y :: ys =>
      match Kind.decEq x y, Kind.decEqList xs ys with
      | .isTrue h1, .isTrue h2 => .isTrue (by rw [h1, h2])
      | .isFalse h1, _ => .isFalse (fun hh => h1 (List.cons.inj hh).1)
      | _, .isFalse h2 => .isFalse (fun hh => h2 (List.cons.inj hh).2)

end

instance : DecidableEq Kind := Kind.decEq

/-- Modelled from the spec: `Kind::bits()`, the total bit width of a kind
(used by `TypedBits::unsigned_cast`/`signed_cast` as `self.kind.bits()`). -/
def Kind.width : Kind → Nat
  | .bits n => n
  | .signed n => n
  | .tuple es => (es.attach.map (fun e => Kind.width e.1)).sum
  | .empty => 0
  | .signal base _ => base.width
termination_by k => sizeOf k
decreasing_by
  · have h := List.sizeOf_lt_of_mem e.2
    simp only [Kind.tuple.sizeOf_spec]
    omega
  · simp only [Kind.signal.sizeOf_spec]
    omega

/-- Modelled from the spec: `Kind::is_composite()` — the composite kinds are
tuple/array/struct/enum (of which only `tuple` is in the fragment). -/
def Kind.is_composite : Kind → Bool
  | .tuple _ => true
  | _ => false

/-- Modelled from the spec: `Kind::is_unsigned()` holds exactly for `Bits`. -/
def Kind.is_unsigned : Kind → Bool
  | .bits _ => true
  | _ => false

/-- Modelled from the spec: `Kind::is_signed()` holds exactly for `Signed`. -/
def Kind.is_signed : Kind → Bool
  | .signed _ => true
  | _ => false

/-- Modelled from the spec: `Kind::is_bool()` — a boolean is a 1-bit `Bits`
value (`bool::static_kind()` is `Kind::Bits(1)`). -/
def Kind.is_bool : Kind → Bool
  | .bits 1 => true
  | _ => false

/-- Modelled from the spec: `Kind::is_empty()` holds exactly for `Empty`. -/
def Kind.is_empty : Kind → Bool
  | .empty => true
  | _ => false

/-- `TypedBits` (`types/typed_bits.rs`): a concrete value — a bit vector plus
its `Kind`. -/
structure TypedBits where
  bits : List Bool
  kind : Kind
deriving DecidableEq

/-- Error type: one constructor per error path reached by the embedded
fragment.  The Rust code uses several error enums (`DynamicTypeError`,
`anyhow` strings for the VM, `ICE`); they are flattened here, keeping the
payloads the claims talk about.  Rust `panic!`s (out-of-bounds indexing and
missing map keys) are modelled as the dedicated `panic*` constructors. -/
inductive Err where
  | binaryOperationRequiresSameType (lhs rhs : Kind)
  | cannotApplyBinaryOperationToComposite
  | cannotApplyShiftOperationToComposite
  | shiftAmountMustBeUnsigned
  | shiftAmountMustBeLessThan (max : Nat)
  | unsignedCastWithWidthFailed (bits : Nat)
  | signedCastWithWidthFailed (bits : Nat)
  | unableToInterpretAsI64 (kind : Kind)
  | cannotCastToBool
  | cannotNegateComposite
  | cannotNegateUnsigned
  | signedCastFailed
  | unsignedCastFailed
  | iceRegisterNotInitialized (r : Nat)
  | iceCannotWriteToLiteral
  | iceCannotWriteNonEmptyToEmptySlot
  | iceCastLengthNotProvided
  | argumentCountMismatch (fnName : String) (expected got : Nat)
  | iceArgumentKindNotFound (ndx : Nat)
  | argumentKindMismatch (fnName : String) (ndx : Nat) (expected got : Kind)
  | iceReturnSlotNotInitialized
  | iceSymbolTableIsIncomplete (slotLit : Option Nat) (slotReg : Option Nat)
  | panicIndexOutOfBounds
  | panicMissingMapKey (key : Nat)
deriving DecidableEq

/- ------------------------------------------------------------------ -/
/- dyn_bit_manip.rs                                                    -/
/- ------------------------------------------------------------------ -/

/-- `add_one` (`dyn_bit_manip.rs`): scan over the bits with an initial carry
of `true`; at each position the sum bit is `b ^ carry` and the new carry is
`carry & b`. -/
def addOneAux : List Bool → Bool → List Bool
  | [], _ => []
  | b :: bs, carry => (Bool.xor b carry) :: addOneAux bs (carry && b)

/-- `add_one` entry point. -/
def add_one (a : List Bool) : List Bool := addOneAux a true

/-- `full_add` (`dyn_bit_manip.rs`): ripple-carry adder, zipping the two bit
vectors (the scan stops at the shorter input, as `Iterator::zip` does). -/
def fullAddAux : List Bool → List Bool → Bool → List Bool
  | a :: as_, b :: bs, carry =>
      (Bool.xor (Bool.xor a b) carry) :: fullAddAux as_ bs ((a && b) || (a && carry) || (b && carry))
  | _, _, _ => []

/-- `full_add` entry point (initial carry `false`). -/
def full_add (a b : List Bool) : List Bool := fullAddAux a b false

/-- `bit_not` (`dyn_bit_manip.rs`). -/
def bit_not (a : List Bool) : List Bool := a.map (fun b => !b)

/-- `bit_neg` (`dyn_bit_manip.rs`): two's complement negation. -/
def bit_neg (a : List Bool) : List Bool := add_one (bit_not a)

/-- `full_sub` (`dyn_bit_manip.rs`). -/
def full_sub (a b : List Bool) : List Bool := full_add a (bit_neg b)

/-- `bits_xor` (`dyn_bit_manip.rs`). -/
def bits_xor (a b : List Bool) : List Bool := List.zipWith (fun x y => Bool.xor x y) a b

/-- `bits_and` (`dyn_bit_manip.rs`). -/
def bits_and (a b : List Bool) : List Bool := List.zipWith (fun x y => x && y) a b

/-- `bits_or` (`dyn_bit_manip.rs`). -/
def bits_or (a b : List Bool) : List Bool := List.zipWith (fun x y => x || y) a b

/-- `bits_shl` (`dyn_bit_manip.rs`): `repeat(false).take(n).chain(a).take(a.len())`,
written in closed form (the first `min n a.length` output bits are `false`,
followed by the surviving low bits of `a`). -/
def bits_shl (a : List Bool) (n : Nat) : List Bool :=
  List.replicate (min n a.length) false ++ a.take (a.length - n)

/-- `bits_shr` (`dyn_bit_manip.rs`): `a.skip(n).chain(repeat(false).take(n)).take(a.len())`,
written in closed form.  Note that for `n < a.length` the result keeps length
`a.length`, while for larger `n` it has `min n a.length` bits, exactly as the
iterator chain does. -/
def bits_shr (a : List Bool) (n : Nat) : List Bool :=
  a.drop n ++ List.replicate (min n a.length) false

/-- `bits_shr_signed` (`dyn_bit_manip.rs`): arithmetic right shift padding
with the sign bit (`a.last()` or `false` when empty). -/
def bits_shr_signed (a : List Bool) (n : Nat) : List Bool :=
  a.drop n ++ List.replicate (min n a.length) (a.getLast?.getD false)

/-- Value of a little-endian bit vector as a natural number. -/
def bitsToNat : List Bool → Nat
  | [] => 0
  | b :: bs => (if b then 1 else 0) + 2 * bitsToNat bs

/- ------------------------------------------------------------------ -/
/- types/typed_bits.rs                                                 -/
/- ------------------------------------------------------------------ -/

/-- `TypedBits::EMPTY`. -/
def TypedBits.EMPTY : TypedBits := { bits := [], kind := .empty }

/-- Lift a boolean to its `TypedBits` form (`bool::typed_bits()`: one bit of
kind `Bits(1)`). -/
def boolTB (b : Bool) : TypedBits := { bits := [b], kind := .bits 1 }

/-- `TypedBits::unsigned_cast` (`types/typed_bits.rs`): widening zero-extends
to the requested width; narrowing (or keeping the width) splits the vector and
fails if any discarded high bit is set. -/
def TypedBits.unsigned_cast (tb : TypedBits) (bits : Nat) : Except Err TypedBits :=
  if bits > tb.kind.width then
    .ok { bits := (tb.bits ++ List.replicate bits false).take bits, kind := .bits bits }
  else
    let base := tb.bits.take bits
    let rest := tb.bits.drop bits
    if rest.any id then
      .error (.unsignedCastWithWidthFailed bits)
    else
      .ok { bits := base, kind := .bits bits }

/-- `TypedBits::signed_cast` (`types/typed_bits.rs`): widening sign-extends;
narrowing fails unless all discarded bits equal the new sign bit. -/
def TypedBits.signed_cast (tb : TypedBits) (bits : Nat) : Except Err TypedBits :=
  if bits > tb.kind.width then
    let sign_bit := tb.bits.getLast?.getD false
    .ok { bits := (tb.bits ++ List.replicate bits sign_bit).take bits, kind := .signed bits }
  else
    let base := tb.bits.take bits
    let rest := tb.bits.drop bits
    let new_sign_bit := base.getLast?.getD false
    if rest.any (fun b => b != new_sign_bit) then
      .error (.signedCastWithWidthFailed bits)
    else
      .ok { bits := base, kind := .signed bits }

/-- Reinterpret a 64-entry little-endian bit vector as an `i64` (the Rust code
assembles a `u64` from the bits and reinterprets it with `as i64`). -/
def i64OfBits64 (bits : List Bool) : Int :=
  let u := bitsToNat bits
  if u < 2 ^ 63 then (u : Int) else (u : Int) - 2 ^ 64

/-- `TypedBits::as_i64` (`types/typed_bits.rs`): cast to 64 bits according to
the sign of the kind, then reinterpret. -/
def TypedBits.as_i64 (tb : TypedBits) : Except Err Int :=
  match tb.kind with
  | .bits _ => (tb.unsigned_cast 64).map (fun t => i64OfBits64 t.bits)
  | .signed _ => (tb.signed_cast 64).map (fun t => i64OfBits64 t.bits)
  | k => .error (.unableToInterpretAsI64 k)

/-- `TypedBits::any` (`types/typed_bits.rs`): OR-reduction to a boolean. -/
def TypedBits.any (tb : TypedBits) : TypedBits := boolTB (tb.bits.any id)

/-- `TypedBits::all` (`types/typed_bits.rs`): AND-reduction to a boolean. -/
def TypedBits.all (tb : TypedBits) : TypedBits := boolTB (tb.bits.all id)

/-- `TypedBits::xor` (`types/typed_bits.rs`): XOR-reduction to a boolean. -/
def TypedBits.xorReduce (tb : TypedBits) : TypedBits :=
  boolTB (tb.bits.foldl (fun a b => Bool.xor a b) false)

/-- `TypedBits::as_bool` (`types/typed_bits.rs`): succeeds on `Bits(1)` kinds
and returns bit 0 (indexing an empty vector would panic in Rust). -/
def TypedBits.as_bool (tb : TypedBits) : Except Err Bool :=
  if tb.kind.is_bool then
    match tb.bits with
    | b :: _ => .ok b
    | [] => .error .panicIndexOutOfBounds
  else
    .error .cannotCastToBool

/-- `TypedBits::as_signed` (`types/typed_bits.rs`). -/
def TypedBits.as_signed (tb : TypedBits) : Except Err TypedBits :=
  match tb.kind with
  | .bits n => .ok { bits := tb.bits, kind := .signed n }
  | _ => .error .signedCastFailed

/-- `TypedBits::as_unsigned` (`types/typed_bits.rs`). -/
def TypedBits.as_unsigned (tb : TypedBits) : Except Err TypedBits :=
  match tb.kind with
  | .signed n => .ok { bits := tb.bits, kind := .bits n }
  | _ => .error .unsignedCastFailed

/-- `TypedBits::repeat` (`types/typed_bits.rs`): cycle the bits `count` times.
The array result kind is collapsed to the composite placeholder of the
fragment. -/
def TypedBits.repeatTB (tb : TypedBits) (count : Nat) : TypedBits :=
  { bits := (List.replicate count tb.bits).flatten,
    kind := .tuple (List.replicate count tb.kind) }

/-- `impl Add for TypedBits` (`types/typed_bits.rs`): requires equal kinds and
a non-composite kind, then performs the ripple-carry add (the final carry is
discarded because `full_add` zips to the common length). -/
def TypedBits.add (a rhs : TypedBits) : Except Err TypedBits :=
  if a.kind ≠ rhs.kind then
    .error (.binaryOperationRequiresSameType a.kind rhs.kind)
  else if a.kind.is_composite then
    .error .cannotApplyBinaryOperationToComposite
  else
    .ok { bits := full_add a.bits rhs.bits, kind := a.kind }

/-- `impl Sub for TypedBits` (`types/typed_bits.rs`). -/
def TypedBits.sub (a rhs : TypedBits) : Except Err TypedBits :=
  if a.kind ≠ rhs.kind then
    .error (.binaryOperationRequiresSameType a.kind rhs.kind)
  else
    .ok { bits := full_sub a.bits rhs.bits, kind := a.kind }

/-- `impl Not for TypedBits` (`types/typed_bits.rs`). -/
def TypedBits.notTB (a : TypedBits) : Except Err TypedBits :=
  if a.kind.is_composite then
    .error .cannotNegateComposite
  else
    .ok { bits := bit_not a.bits, kind := a.kind }

/-- `impl Neg for TypedBits` (`types/typed_bits.rs`). -/
def TypedBits.negTB (a : TypedBits) : Except Err TypedBits :=
  if !a.kind.is_signed then
    .error .cannotNegateUnsigned
  else
    .ok { bits := bit_neg a.bits, kind := a.kind }

/-- `impl BitXor for TypedBits` (`types/typed_bits.rs`). -/
def TypedBits.bitxor (a rhs : TypedBits) : Except Err TypedBits :=
  if a.kind ≠ rhs.kind then
    .error (.binaryOperationRequiresSameType a.kind rhs.kind)
  else if a.kind.is_composite then
    .error .cannotApplyBinaryOperationToComposite
  else
    .ok { bits := bits_xor a.bits rhs.bits, kind := a.kind }

/-- `impl BitAnd for TypedBits` (`types/typed_bits.rs`). -/
def TypedBits.bitand (a rhs : TypedBits) : Except Err TypedBits :=
  if a.kind ≠ rhs.kind then
    .error (.binaryOperationRequiresSameType a.kind rhs.kind)
  else if a.kind.is_composite then
    .error .cannotApplyBinaryOperationToComposite
  else
    .ok { bits := bits_and a.bits rhs.bits, kind := a.kind }

/-- `impl BitOr for TypedBits` (`types/typed_bits.rs`). -/
def TypedBits.bitor (a rhs : TypedBits) : Except Err TypedBits :=
  if a.kind ≠ rhs.kind then
    .error (.binaryOperationRequiresSameType a.kind rhs.kind)
  else if a.kind.is_composite then
    .error .cannotApplyBinaryOperationToComposite
  else
    .ok { bits := bits_or a.bits rhs.bits, kind := a.kind }

/-- Rust `as usize` on an `i64` value: two's-complement reinterpretation into
the 64-bit unsigned range. -/
def usizeOfI64 (i : Int) : Nat := (i % 2 ^ 64).toNat

/-- `impl Shl for TypedBits` (`types/typed_bits.rs`): rejects composite
values, requires an unsigned shift amount, converts it with `as_i64`, and
rejects (signed) shift amounts at least the bit length; the bits are then
shifted left with the shift amount cast `as usize`. -/
def TypedBits.shl (a rhs : TypedBits) : Except Err TypedBits :=
  if a.kind.is_composite then
    .error .cannotApplyShiftOperationToComposite
  else if !rhs.kind.is_unsigned then
    .error .shiftAmountMustBeUnsigned
  else
    match rhs.as_i64 with
    | .error e => .error e
    | .ok shift =>
        if shift ≥ (a.bits.length : Int) then
          .error (.shiftAmountMustBeLessThan a.bits.length)
        else
          .ok { bits := bits_shl a.bits (usizeOfI64 shift), kind := a.kind }

/-- `impl Shr for TypedBits` (`types/typed_bits.rs`): same guards as `shl`;
signed kinds shift arithmetically, unsigned kinds logically. -/
def TypedBits.shr (a rhs : TypedBits) : Except Err TypedBits :=
  if a.kind.is_composite then
    .error .cannotApplyShiftOperationToComposite
  else if !rhs.kind.is_unsigned then
    .error .shiftAmountMustBeUnsigned
  else
    match rhs.as_i64 with
    | .error e => .error e
    | .ok shift =>
        if shift ≥ (a.bits.length : Int) then
          .error (.shiftAmountMustBeLessThan a.bits.length)
        else if a.kind.is_signed then
          .ok { bits := bits_shr_signed a.bits (usizeOfI64 shift), kind := a.kind }
        else
          .ok { bits := bits_shr a.bits (usizeOfI64 shift), kind := a.kind }

/-- Association-list lookup modelling the `BTreeMap` reads of the sources
(first binding wins, `none` for a missing key). -/
def lookupA {A : Type} [DecidableEq A] {B : Type} : List (A × B) → A → Option B
  | [], _ => none
  | (k, v) :: rest, key => if key = k then some v else lookupA rest key

/- ------------------------------------------------------------------ -/
/- rhif/spec.rs, rhif/object.rs (modelled), rhif/runtime_ops.rs        -/
/- ------------------------------------------------------------------ -/

/-- Modelled from the spec: `Slot` (`rhif/spec.rs`, absent from the source
tree) "identifies a value location — Literal(id), Register(id), or Empty". -/
inductive Slot where
  | literal (id : Nat)
  | register (id : Nat)
  | empty
deriving DecidableEq

/-- `Slot::as_literal` (used by the mux-removal pass through
`if let Ok(literal) = select.cond.as_literal()`); the `Result` is only
inspected for success, so it is modelled as an `Option`. -/
def Slot.as_literal : Slot → Option Nat
  | .literal l => some l
  | _ => none

/-- `Slot::is_literal`. -/
def Slot.is_literal : Slot → Bool
  | .literal _ => true
  | _ => false

/-- Modelled from the spec: the binary ALU opcodes of `rhif/spec.rs` that the
embedded fragment dispatches (the comparison opcodes are not needed by any
claim). -/
inductive AluBinary where
  | add
  | sub
  | bitAnd
  | bitOr
  | bitXor
  | shl
  | shr
deriving DecidableEq

/-- Modelled from the spec: the unary ALU opcodes of `rhif/spec.rs`. -/
inductive AluUnary where
  | not
  | neg
  | all
  | any
  | xor
  | unsigned
  | signed
deriving DecidableEq

/-- `binary` (`rhif/runtime_ops.rs`, absent from the source tree): modelled as
dispatch to the corresponding `TypedBits` operator implementations, which is
all the file does for these opcodes. -/
def runtimeBinary (op : AluBinary) (arg1 arg2 : TypedBits) : Except Err TypedBits :=
  match op with
  | .add => arg1.add arg2
  | .sub => arg1.sub arg2
  | .bitAnd => arg1.bitand arg2
  | .bitOr => arg1.bitor arg2
  | .bitXor => arg1.bitxor arg2
  | .shl => arg1.shl arg2
  | .shr => arg1.shr arg2

/-- `unary` (`rhif/runtime_ops.rs`, absent from the source tree): modelled as
dispatch to the corresponding `TypedBits` implementations. -/
def runtimeUnary (op : AluUnary) (arg1 : TypedBits) : Except Err TypedBits :=
  match op with
  | .not => arg1.notTB
  | .neg => arg1.negTB
  | .all => .ok arg1.all
  | .any => .ok arg1.any
  | .xor => .ok arg1.xorReduce
  | .unsigned => arg1.as_unsigned
  | .signed => arg1.as_signed

/-- Modelled from the spec: the RHIF opcodes (`rhif/spec.rs`, absent from the
source tree), restricted to the fragment the claims exercise.  The structural
opcodes needing `Path` machinery (`Index`, `Splice`, `Struct`, `Enum`, `Case`,
`Retime`) are outside the fragment. -/
inductive OpCode where
  | noop
  | comment (text : String)
  | binary (op : AluBinary) (lhs arg1 arg2 : Slot)
  | unary (op : AluUnary) (lhs arg1 : Slot)
  | select (lhs cond true_value false_value : Slot)
  | assign (lhs rhs : Slot)
  | asBits (lhs arg : Slot) (len : Option Nat)
  | asSigned (lhs arg : Slot) (len : Option Nat)
  | exec (lhs : Slot) (id : Nat) (args : List Slot)
  | tuple (lhs : Slot) (fields : List Slot)
  | repeatOp (lhs value : Slot) (len : Nat)
deriving DecidableEq

/-- `LocatedOpCode` (`rhif/object.rs`): an opcode with its source node id. -/
structure LocatedOpCode where
  op : OpCode
  node : Nat
deriving DecidableEq

/-- Modelled from the spec: the slice of `SymbolMap` that the completeness
pass reads — the domain of `symbols.slot_map` (slot → source location) and the
fallback source id `symbols.source_set.fallback`. -/
structure SymbolTable where
  slot_map : List (Slot × Nat)
  fallback : Nat
deriving DecidableEq

/-- Modelled from the spec: `Object` (`rhif/object.rs`, absent from the source
tree) — "ops + literal table + per-slot type map", the argument register list,
the return slot, the external-function table and the symbol table, exactly the
fields the present sources read.  Maps are association lists; `externals` is
indexed positionally by `FunctionId`. -/
structure Object where
  symbols : SymbolTable
  ops : List LocatedOpCode
  literals : List (Nat × TypedBits)
  kind : List (Slot × Kind)
  arguments : List Nat
  return_slot : Slot
  externals : List Object
  name : String

/- ------------------------------------------------------------------ -/
/- rhif/vm.rs                                                          -/
/- ------------------------------------------------------------------ -/

/-- The VM register file (`reg_stack`): uninitialized registers read as
`none`.  The Rust fixed-size `Vec<Option<TypedBits>>` is modelled as an
association list (absent = `None`). -/
abbrev RegFile := List (Nat × TypedBits)

/-- `VMState::read` (`rhif/vm.rs`): literals come from the literal table
(a missing key would panic in Rust), uninitialized registers are an ICE,
`Empty` reads as the empty value. -/
def vmRead (lits : List (Nat × TypedBits)) (reg : RegFile) : Slot → Except Err TypedBits
  | .literal l =>
      match lookupA lits l with
      | some v => .ok v
      | none => .error (.panicMissingMapKey l)
  | .register r =>
      match lookupA reg r with
      | some v => .ok v
      | none => .error (.iceRegisterNotInitialized r)
  | .empty => .ok TypedBits.EMPTY

/-- `VMState::write` (`rhif/vm.rs`): writing a literal is an ICE; writing a
non-empty value to the `Empty` slot is an ICE. -/
def vmWrite (reg : RegFile) : Slot → TypedBits → Except Err RegFile
  | .literal _, _ => .error .iceCannotWriteToLiteral
  | .register r, value => .ok ((r, value) :: reg)
  | .empty, value =>
      if value.kind.is_empty then .ok reg else .error .iceCannotWriteNonEmptyToEmptySlot

/-- Positional read of a list of slots (the
`args.iter().map(|x| state.read(*x)).collect::<Result<Vec<_>>>()` pattern in
`execute_block`). -/
def vmReadAll (lits : List (Nat × TypedBits)) (reg : RegFile) : List Slot → Except Err (List TypedBits)
  | [] => .ok []
  | s :: rest => do
      let v ← vmRead lits reg s
      let vs ← vmReadAll lits reg rest
      .ok (v :: vs)

/-- `tuple` (`rhif/runtime_ops.rs`, absent from the source tree): concatenate
the field bits; the kind is the tuple of the field kinds. -/
def runtimeTuple (fields : List TypedBits) : TypedBits :=
  { bits := (fields.map TypedBits.bits).flatten,
    kind := .tuple (fields.map TypedBits.kind) }

/-- Argument-validation loop of `execute` (`rhif/vm.rs` lines 247-262): each
supplied argument's `Kind` must equal the kind recorded for the corresponding
argument slot; the first mismatch is reported with the function name, the
argument index and the two kinds. -/
def validateArgs (fnName : String) (kindMap : List (Slot × Kind)) :
    Nat → List Nat → List TypedBits → Except Err Unit
  | _, [], _ => .ok ()
  | _, _ :: _, [] => .ok ()
  | ndx, r :: rs, arg :: rest =>
      match lookupA kindMap (Slot.register r) with
      | none => .error (.iceArgumentKindNotFound ndx)
      | some objKind =>
          if objKind ≠ arg.kind then
            .error (.argumentKindMismatch fnName ndx objKind arg.kind)
          else
            validateArgs fnName kindMap (ndx + 1) rs rest

/-- Argument loading of `execute` (`rhif/vm.rs` lines 267-270): copy the
arguments into the registers named by `obj.arguments`. -/
def loadArgs : RegFile → List Nat → List TypedBits → RegFile
  | reg, r :: rs, v :: vs => loadArgs ((r, v) :: reg) rs vs
  | reg, _, _ => reg

mutual

/-- `execute` (`rhif/vm.rs`): validate the argument count and per-argument
kinds, load the arguments into a fresh register file, run the op block,
and read the return slot. -/
def execute (obj : Object) (arguments : List TypedBits) : Except Err TypedBits :=
  if obj.arguments.length ≠ arguments.length then
    .error (.argumentCountMismatch obj.name obj.arguments.length arguments.length)
  else
    match validateArgs obj.name obj.kind 0 obj.arguments arguments with
    | .error e => .error e
    | .ok _ =>
        let reg0 : RegFile := loadArgs [] obj.arguments arguments
        match execOps obj.literals obj.externals obj.ops reg0 with
        | .error e => .error e
        | .ok reg =>
            match obj.return_slot with
            | .empty => .ok TypedBits.EMPTY
            | .register r =>
                match lookupA reg r with
                | some v => .ok v
                | none => .error .iceReturnSlotNotInitialized
            | .literal l =>
                match lookupA obj.literals l with
                | some v => .ok v
                | none => .error (.panicMissingMapKey l)
termination_by (sizeOf obj, 0)
decreasing_by
  simp_wf
  apply Prod.Lex.left
  cases obj
  simp only [Object.mk.sizeOf_spec]
  omega

/-- `execute_block` (`rhif/vm.rs`): run the opcodes in order, threading the
register file. -/
def execOps (lits : List (Nat × TypedBits)) (externals : List Object)
    (ops : List LocatedOpCode) (reg : RegFile) : Except Err RegFile :=
  match ops with
  | [] => .ok reg
  | lop :: rest =>
      match execOp lits externals reg lop.op with
      | .error e => .error e
      | .ok reg2 => execOps lits externals rest reg2
termination_by (sizeOf externals, 1 + sizeOf ops)

/-- One iteration of the `execute_block` loop (`rhif/vm.rs`): the semantics of
a single opcode. -/
def execOp (lits : List (Nat × TypedBits)) (externals : List Object)
    (reg : RegFile) (op : OpCode) : Except Err RegFile :=
  match op with
  | .noop => .ok reg
  | .comment _ => .ok reg
  | .binary aluOp lhs arg1 arg2 =>
      match vmRead lits reg arg1 with
      | .error e => .error e
      | .ok a1 =>
          match vmRead lits reg arg2 with
          | .error e => .error e
          | .ok a2 =>
              match runtimeBinary aluOp a1 a2 with
              | .error e => .error e
              | .ok result => vmWrite reg lhs result
  | .unary aluOp lhs arg1 =>
      match vmRead lits reg arg1 with
      | .error e => .error e
      | .ok a1 =>
          match runtimeUnary aluOp a1 with
          | .error e => .error e
          | .ok result => vmWrite reg lhs result
  | .select lhs cond true_value false_value =>
      match vmRead lits reg cond with
      | .error e => .error e
      | .ok condVal =>
          match vmRead lits reg true_value with
          | .error e => .error e
          | .ok tv =>
              match vmRead lits reg false_value with
              | .error e => .error e
              | .ok fv =>
                  match condVal.any.as_bool with
                  | .error e => .error e
                  | .ok b => if b then vmWrite reg lhs tv else vmWrite reg lhs fv
  | .assign lhs rhs =>
      match vmRead lits reg rhs with
      | .error e => .error e
      | .ok v => vmWrite reg lhs v
  | .asBits lhs arg len =>
      match vmRead lits reg arg with
      | .error e => .error e
      | .ok v =>
          match len with
          | none => .error .iceCastLengthNotProvided
          | some n =>
              match v.unsigned_cast n with
              | .error e => .error e
              | .ok result => vmWrite reg lhs result
  | .asSigned lhs arg len =>
      match vmRead lits reg arg with
      | .error e => .error e
      | .ok v =>
          match len with
          | none => .error .iceCastLengthNotProvided
          | some n =>
              match v.signed_cast n with
              | .error e => .error e
              | .ok result => vmWrite reg lhs result
  | .exec lhs id args =>
      match vmReadAll lits reg args with
      | .error e => .error e
      | .ok argVals =>
          match h : externals.get? id with
          | none => .error (.panicMissingMapKey id)
          | some func =>
              match execute func argVals with
              | .error e => .error e
              | .ok result => vmWrite reg lhs result
  | .tuple lhs fields =>
      match vmReadAll lits reg fields with
      | .error e => .error e
      | .ok fieldVals => vmWrite reg lhs (runtimeTuple fieldVals)
  | .repeatOp lhs value len =>
      match vmRead lits reg value with
      | .error e => .error e
      | .ok v => vmWrite reg lhs (v.repeatTB len)
termination_by (sizeOf externals, 0)
decreasing_by
  simp_wf
  apply Prod.Lex.left
  exact List.sizeOf_lt_of_mem (List.get?_mem h)

end

/- ------------------------------------------------------------------ -/
/- compiler/passes/remove_unneeded_muxes.rs                            -/
/- ------------------------------------------------------------------ -/

/-- Per-op body of `RemoveUnneededMuxesPass::run` (`remove_unneeded_muxes.rs`):
a `Select` whose condition slot is a literal is replaced by an `Assign` of the
branch picked by that literal's boolean value (a missing literal key would
panic in Rust, a non-boolean literal errors through `as_bool`); otherwise a
`Select` whose two branch slots coincide becomes an `Assign` of that slot. -/
def transformMuxOp (lits : List (Nat × TypedBits)) (lop : LocatedOpCode) :
    Except Err LocatedOpCode :=
  match lop.op with
  | .select lhs cond true_value false_value =>
      match cond.as_literal with
      | some l =>
          match lookupA lits l with
          | none => .error (.panicMissingMapKey l)
          | some val =>
              match val.as_bool with
              | .error e => .error e
              | .ok b =>
                  if b then .ok { lop with op := .assign lhs true_value }
                  else .ok { lop with op := .assign lhs false_value }
      | none =>
          if true_value = false_value then
            .ok { lop with op := .assign lhs true_value }
          else
            .ok lop
  | _ => .ok lop

/-- The `for lop in input.ops.iter_mut()` loop of `RemoveUnneededMuxesPass::run`:
rewrite each op in order, propagating the first error. -/
def transformMuxOps (lits : List (Nat × TypedBits)) :
    List LocatedOpCode → Except Err (List LocatedOpCode)
  | [] => .ok []
  | lop :: rest =>
      match transformMuxOp lits lop with
      | .error e => .error e
      | .ok lop2 =>
          match transformMuxOps lits rest with
          | .error e => .error e
          | .ok rest2 => .ok (lop2 :: rest2)

/-- `RemoveUnneededMuxesPass::run` (`remove_unneeded_muxes.rs`): rewrite every
op in place and return the object with the rewritten op list. -/
def removeUnneededMuxes (input : Object) : Except Err Object :=
  match transformMuxOps input.literals input.ops with
  | .error e => .error e
  | .ok ops => .ok { input with ops := ops }

/- ------------------------------------------------------------------ -/
/- compiler/rhif_passes/symbol_table_is_complete.rs                    -/
/- ------------------------------------------------------------------ -/

/-- Modelled from the spec: `remap_slots` (`rhif/remap.rs`, absent from the
source tree) visits every slot mentioned by an opcode; the completeness pass
only uses it to enumerate those slots. -/
def opSlots : OpCode → List Slot
  | .noop => []
  | .comment _ => []
  | .binary _ lhs arg1 arg2 => [lhs, arg1, arg2]
  | .unary _ lhs arg1 => [lhs, arg1]
  | .select lhs cond true_value false_value => [lhs, cond, true_value, false_value]
  | .assign lhs rhs => [lhs, rhs]
  | .asBits lhs arg _ => [lhs, arg]
  | .asSigned lhs arg _ => [lhs, arg]
  | .exec lhs _ args => lhs :: args
  | .tuple lhs fields => lhs :: fields
  | .repeatOp lhs value _ => [lhs, value]

/-- The used-slot set of `SymbolTableIsComplete::run`: the argument slots, the
return slot, and every slot mentioned by any operation. -/
def usedSlots (input : Object) : List Slot :=
  input.arguments.map Slot.register ++ input.return_slot ::
    (input.ops.map (fun lop => opSlots lop.op)).flatten

/-- Slot payload carried by the `SymbolTableIsIncomplete` ICE, for the error
constructor. -/
def slotErrPayload : Slot → Option Nat × Option Nat
  | .literal l => (some l, none)
  | .register r => (none, some r)
  | .empty => (none, none)

/-- `SymbolTableIsComplete::run` (`symbol_table_is_complete.rs`): collect the
used slots, and fail with an internal-compiler-error naming a slot that has no
entry in `symbols.slot_map`; on success the object is returned unchanged.
(The Rust pass iterates a `HashSet`, so which missing slot is named is
unspecified; here the first in list order is named.) -/
def symbolTableIsComplete (input : Object) : Except Err Object :=
  match (usedSlots input).find? (fun s => (lookupA input.symbols.slot_map s).isNone) with
  | some s =>
      .error (.iceSymbolTableIsIncomplete (slotErrPayload s).1 (slotErrPayload s).2)
  | none => .ok input

/- ------------------------------------------------------------------ -/
/- compiler/mir/infer.rs — clock coherence of Select                   -/
/- ------------------------------------------------------------------ -/

/-- Modelled from the spec: a clock type of the unification store
(`compiler/mir/ty.rs`, absent from the source tree) — either an unresolved
type variable or a concrete clock color. -/
inductive ClockTy where
  | var (n : Nat)
  | color (c : Color)
deriving DecidableEq

/-- Modelled from the spec: the projection `project_signal_clock` — an operand
type either is a `Signal` carrying a clock type or is clock-free.  Each
operand records the source node id used for diagnostic spans (`TypeId.id`). -/
inductive MTy where
  | notSignal (id : Nat)
  | signal (id : Nat) (clock : ClockTy)
deriving DecidableEq

/-- The source node of an operand type (`TypeId.id`). -/
def MTy.node : MTy → Nat
  | .notSignal id => id
  | .signal id _ => id

/-- `project_signal_clock` on the modelled operand types. -/
def MTy.project_signal_clock : MTy → Option ClockTy
  | .notSignal _ => none
  | .signal _ clock => some clock

/-- Bindings of clock variables produced by unification. -/
abbrev ClockSubst := List (Nat × Color)

/-- Resolve a clock type through the current bindings. -/
def resolveClock (s : ClockSubst) : ClockTy → Option Color
  | .color c => some c
  | .var n => lookupA s n

/-- Modelled from the spec: unification of two clock types
(`UnifyContext::unify` restricted to clock terms, `compiler/mir/ty.rs` being
absent from the source tree).  Two resolved colors unify only if equal; an
unresolved variable is bound to the other side's color.  Two unresolved
variables unify without producing a binding (the union-find link they would
share cannot be observed by the consecutive-pair traversal of
`enforce_clocks`, where no operand is revisited after its two adjacent
unifications). -/
def unifyClock (s : ClockSubst) (a b : ClockTy) : Option ClockSubst :=
  match resolveClock s a, resolveClock s b with
  | some ca, some cb => if ca = cb then some s else none
  | some ca, none =>
      match b with
      | .var n => some ((n, ca) :: s)
      | .color _ => none
  | none, some cb =>
      match a with
      | .var n => some ((n, cb) :: s)
      | .color _ => none
  | none, none => some s

/-- The consecutive-pair unification loop of `enforce_clocks`
(`infer.rs` lines 413-422): `clocks.iter().zip(clocks.iter().skip(1))`. -/
def unifyClockChain (s : ClockSubst) : List ClockTy → Option ClockSubst
  | [] => some s
  | [_] => some s
  | a :: b :: rest =>
      match unifyClock s a b with
      | none => none
      | some s2 => unifyClockChain s2 (b :: rest)

/-- `enforce_clocks` (`infer.rs`): project the signal clock out of every
operand type and unify consecutive pairs. -/
def enforceClocks (s : ClockSubst) (tys : List MTy) : Option ClockSubst :=
  unifyClockChain s (tys.filterMap MTy.project_signal_clock)

/-- Role labels of the three spans reported by `try_select`
(the `format!` strings "Selector/True value/False value belongs to ... clock
domain"). -/
inductive OperandRole where
  | selector
  | trueValue
  | falseValue
deriving DecidableEq

/-- One labeled element of a clock-coherence violation: the operand role, the
clock domain printed for it (`clock_domain_for_error`; `none` prints as
"Const"), and the operand's source span. -/
structure LabeledSpan where
  role : OperandRole
  domain : Option Color
  span : Nat
deriving DecidableEq

/-- `RHDLClockCoherenceViolation` as constructed by `try_select`
(`infer.rs` lines 455-485): the labeled operand spans plus the span of the
causing expression. -/
structure ClockCoherenceViolation where
  elements : List LabeledSpan
  cause_span : Nat
deriving DecidableEq

/-- `clock_domain_for_error` (`infer.rs` lines 423-432): the resolved concrete
clock of the operand, or `none` ("Const") when there is none. -/
def clockDomainForError (s : ClockSubst) (t : MTy) : Option Color :=
  match t.project_signal_clock with
  | none => none
  | some clock => resolveClock s clock

/-- `try_select` (`infer.rs` lines 433-488): enforce that the clocks of
selector, true value and false value unify pairwise; on failure build the
clock-coherence violation carrying one labeled span per operand plus the
causing expression's span. -/
def trySelect (s : ClockSubst) (id : Nat) (selector true_value false_value : MTy) :
    Except ClockCoherenceViolation ClockSubst :=
  match enforceClocks s [selector, true_value, false_value] with
  | some s2 => .ok s2
  | none =>
      .error
        { elements :=
            [ { role := .selector, domain := clockDomainForError s selector,
                span := selector.node },
              { role := .trueValue, domain := clockDomainForError s true_value,
                span := true_value.node },
              { role := .falseValue, domain := clockDomainForError s false_value,
                span := false_value.node } ],
          cause_span := id }

/-- An operand type whose clock (if any) is a concrete color, not a type
variable: the situation of the claim, which speaks of "the clock colors
present among the operands". -/
def MTy.concreteClocked : MTy → Bool
  | .notSignal _ => true
  | .signal _ (.color _) => true
  | .signal _ (.var _) => false

/-- The concrete clock colors present among a list of operand types. -/
def presentColors (tys : List MTy) : List Color :=
  tys.filterMap (fun t =>
    match t with
    | .signal _ (.color c) => some c
    | _ => none)

/- ------------------------------------------------------------------ -/
/- compiler/mir/infer.rs — literal defaulting                          -/
/- ------------------------------------------------------------------ -/

/-- Modelled from the spec: the resolution state of a literal slot's type
variable after the constraint fixed point (`compiler/mir/ty.rs`, absent from
the source tree, describes these as the "integer"/"maybe-signed" placeholders
awaiting defaulting): a still-unsized generic integer, a sized
signed-or-unsigned placeholder, or a resolved unsigned/signed kind. -/
inductive LitTy where
  | integer
  | maybeSigned (width : Nat)
  | bits (width : Nat)
  | signed (width : Nat)
deriving DecidableEq

/-- `is_unsized_integer` on the modelled literal states. -/
def LitTy.is_unsized_integer : LitTy → Bool
  | .integer => true
  | _ => false

/-- `into_kind` succeeds exactly on the resolved states (the placeholders
cannot collapse to a concrete `Kind`). -/
def LitTy.isResolved : LitTy → Bool
  | .bits _ => true
  | .signed _ => true
  | _ => false

/-- First defaulting rule of `infer` (`infer.rs` lines 837-852): a literal
that is still an unsized generic integer is unified with the 32-bit
signed-or-unsigned placeholder (`ty_maybe_signed` of width 32). -/
def defaultStage1 (t : LitTy) : LitTy :=
  if t.is_unsized_integer then .maybeSigned 32 else t

/-- Second defaulting rule of `infer` (`infer.rs` lines 858-868): a literal
whose sign flag is still undetermined has the flag unified with `Signed`. -/
def defaultStage2 (t : LitTy) : LitTy :=
  match t with
  | .maybeSigned w => .signed w
  | t => t

/-- The two defaulting phases of `infer` (`infer.rs` lines 834-870) acting on
the literal slots.  Each phase is guarded by `!infer.all_slots_resolved()`;
the deferred type operations re-run between phases cannot change a literal
that no other constraint mentions, so they are the identity here. -/
def inferDefaultLiterals (lits : List LitTy) : List LitTy :=
  let l1 := if lits.all LitTy.isResolved then lits else lits.map defaultStage1
  if l1.all LitTy.isResolved then l1 else l1.map defaultStage2

/- ------------------------------------------------------------------ -/
/- Spec-words variant of Exec, for comparison (claim C8)               -/
/- ------------------------------------------------------------------ -/

mutual

/-- Modelled from the spec: the `Exec` semantics the specification describes —
"the callee's own op sequence executes against the *same* VM state using the
external-function table, and its return slot's value is copied back".  This
variant validates the arguments positionally by kind, writes them into the
callee's argument registers *in the caller's register file*, runs the callee
ops against that same register file, reads the callee's return slot from it
and copies the value into the `Exec` destination.  Inlining into the same
state need not terminate on cyclic external tables, so the variant is
fuel-bounded; fuel exhaustion is reported as a distinguished panic. -/
def execOpSameState (fuel : Nat) (lits : List (Nat × TypedBits)) (externals : List Object)
    (reg : RegFile) (op : OpCode) : Except Err RegFile :=
  match fuel with
  | 0 => .error (.panicMissingMapKey 0)
  | fuel + 1 =>
      match op with
      | .exec lhs id args =>
          match vmReadAll lits reg args with
          | .error e => .error e
          | .ok argVals =>
              match externals.get? id with
              | none => .error (.panicMissingMapKey id)
              | some func =>
                  if func.arguments.length ≠ argVals.length then
                    .error (.argumentCountMismatch func.name func.arguments.length
                      argVals.length)
                  else
                    match validateArgs func.name func.kind 0 func.arguments argVals with
                    | .error e => .error e
                    | .ok _ =>
                        let reg1 := loadArgs reg func.arguments argVals
                        match execOpsSameState fuel lits externals func.ops reg1 with
                        | .error e => .error e
                        | .ok reg2 =>
                            match vmRead lits reg2 func.return_slot with
                            | .error e => .error e
                            | .ok result => vmWrite reg2 lhs result
      | other => execOp lits externals reg other
termination_by (fuel, 0)

/-- Op-sequence loop of the spec-words variant. -/
def execOpsSameState (fuel : Nat) (lits : List (Nat × TypedBits)) (externals : List Object)
    (ops : List LocatedOpCode) (reg : RegFile) : Except Err RegFile :=
  match ops with
  | [] => .ok reg
  | lop :: rest =>
      match execOpSameState fuel lits externals reg lop.op with
      | .error e => .error e
      | .ok reg2 => execOpsSameState fuel lits externals rest reg2
termination_by (fuel, 1 + sizeOf ops)

end

/-- Entry point of the spec-words variant: identical to `execute` except that
`Exec` inlines the callee into the caller's state. -/
def executeSameState (fuel : Nat) (obj : Object) (arguments : List TypedBits) :
    Except Err TypedBits :=
  if obj.arguments.length ≠ arguments.length then
    .error (.argumentCountMismatch obj.name obj.arguments.length arguments.length)
  else
    match validateArgs obj.name obj.kind 0 obj.arguments arguments with
    | .error e => .error e
    | .ok _ =>
        let reg0 : RegFile := loadArgs [] obj.arguments arguments
        match execOpsSameState fuel obj.literals obj.externals obj.ops reg0 with
        | .error e => .error e
        | .ok reg =>
            match obj.return_slot with
            | .empty => .ok TypedBits.EMPTY
            | .register r =>
                match lookupA reg r with
                | some v => .ok v
                | none => .error .iceReturnSlotNotInitialized
            | .literal l =>
                match lookupA obj.literals l with
                | some v => .ok v
                | none => .error (.panicMissingMapKey l)

/- ------------------------------------------------------------------ -/
/- Concrete instances used by witnesses and counterexamples            -/
/- ------------------------------------------------------------------ -/

/-- Little-endian bit vector of a natural number at a given width. -/
def natToBits : Nat → Nat → List Bool
  | 0, _ => []
  | w + 1, n => decide (n % 2 = 1) :: natToBits w (n / 2)

/-- Unsigned `TypedBits` value of width `w` holding `n` (`bN` literal). -/
def ubits (w n : Nat) : TypedBits := { bits := natToBits w n, kind := .bits w }

/-- The object compiled from the kernel `fn f(a: b8, b: b8) -> b8 { a + b }`:
two argument registers, one `Add`, the sum register as return slot, and
`Bits(8)` for every slot in the kind map. -/
def addKernelObject : Object :=
  { symbols := { slot_map := [(.register 0, 0), (.register 1, 0), (.register 2, 0)],
                 fallback := 0 },
    ops := [{ op := .binary .add (.register 2) (.register 0) (.register 1), node := 0 }],
    literals := [],
    kind := [(.register 0, .bits 8), (.register 1, .bits 8), (.register 2, .bits 8)],
    arguments := [0, 1],
    return_slot := .register 2,
    externals := [],
    name := "f" }

/-- Object containing a `Select` whose condition is the literal `true` and
whose untaken (false) branch is the uninitialized register 5. -/
def muxCexObject : Object :=
  { symbols := { slot_map := [], fallback := 0 },
    ops := [{ op := .select (.register 0) (.literal 0) (.literal 1) (.register 5),
              node := 0 }],
    literals := [(0, { bits := [true], kind := .bits 1 }), (1, ubits 8 42)],
    kind := [],
    arguments := [],
    return_slot := .register 0,
    externals := [],
    name := "g" }

/-- The mux-removal output for `muxCexObject`: the `Select` became an `Assign`
of the taken branch. -/
def muxCexTransformed : Object :=
  { muxCexObject with
    ops := [{ op := .assign (.register 0) (.literal 1), node := 0 }] }

/-- Variant of `muxCexObject` whose false branch is also a literal, so both
the original and the rewritten object execute successfully. -/
def muxOkObject : Object :=
  { muxCexObject with
    ops := [{ op := .select (.register 0) (.literal 0) (.literal 1) (.literal 1),
              node := 0 }] }

/-- The mux-removal output for `muxOkObject`. -/
def muxOkTransformed : Object :=
  { muxCexObject with
    ops := [{ op := .assign (.register 0) (.literal 1), node := 0 }] }

/-- Object with a `Select` whose two branch slots are the same register. -/
def sameBranchObject : Object :=
  { symbols := { slot_map := [], fallback := 0 },
    ops := [{ op := .select (.register 1) (.register 0) (.register 2) (.register 2),
              node := 7 }],
    literals := [],
    kind := [],
    arguments := [],
    return_slot := .empty,
    externals := [],
    name := "h" }

/-- The mux-removal output for `sameBranchObject`. -/
def sameBranchTransformed : Object :=
  { sameBranchObject with
    ops := [{ op := .assign (.register 1) (.register 2), node := 7 }] }

/-- Object whose symbol table covers every used slot but whose kind map is
empty. -/
def kindlessObject : Object :=
  { symbols := { slot_map := [(.register 0, 0), (.literal 0, 0)], fallback := 3 },
    ops := [{ op := .assign (.register 0) (.literal 0), node := 0 }],
    literals := [(0, ubits 4 3)],
    kind := [],
    arguments := [],
    return_slot := .register 0,
    externals := [],
    name := "k" }

/-- Callee with no ops whose return slot is register 0: it can only produce a
value if it sees the caller's registers. -/
def bareCallee : Object :=
  { symbols := { slot_map := [], fallback := 0 },
    ops := [],
    literals := [],
    kind := [],
    arguments := [],
    return_slot := .register 0,
    externals := [],
    name := "callee" }

/-- Caller that initializes register 0 to `5 : b8` and then `Exec`s
`bareCallee`, returning the `Exec` destination. -/
def callerWithState : Object :=
  { symbols := { slot_map := [], fallback := 0 },
    ops := [{ op := .assign (.register 0) (.literal 0), node := 0 },
            { op := .exec (.register 1) 0 [], node := 1 }],
    literals := [(0, ubits 8 5)],
    kind := [],
    arguments := [],
    return_slot := .register 1,
    externals := [bareCallee],
    name := "caller" }

/-- A composite (tuple-kinded) two-bit value. -/
def tuplePair : TypedBits :=
  { bits := [false, false], kind := .tuple [.bits 1, .bits 1] }

/-- The unsigned one-bit shift amount zero. -/
def shiftZero : TypedBits := { bits := [false], kind := .bits 1 }

/-- The unsigned 64-bit shift amount `2^63`, whose `i64` reinterpretation is
negative. -/
def hugeShift : TypedBits := ubits 64 (2 ^ 63)

/-- Well-formedness of an object's literal table: each literal's bit length
matches its kind's width. -/
def wfLiterals (obj : Object) : Prop :=
  ∀ p ∈ obj.literals, (p.2).bits.length = (p.2).kind.width

/- ================================================================== -/
/- Theorems                                                            -/
/- ================================================================== -/

/- Helper lemmas (shared; not claim theorems). -/

theorem fullAddAux_length (a : List Bool) :
    ∀ b c, (fullAddAux a b c).length = min a.length b.length := by
  induction a with
  | nil => intro b c; cases b <;> simp [fullAddAux]
  | cons x xs ih =>
      intro b c
      cases b with
      | nil => simp [fullAddAux]
      | cons y ys =>
          simp [fullAddAux, ih]
          omega

theorem bool_add_split (x y c : Bool) :
    x.toNat + y.toNat + c.toNat =
      (Bool.xor (Bool.xor x y) c).toNat + 2 * ((x && y) || (x && c) || (y && c)).toNat := by
  cases x <;> cases y <;> cases c <;> decide

theorem mod_double (s K M : Nat) (hs : s ≤ 1) (hM : 0 < M) :
    (s + 2 * K) % (2 * M) = s + 2 * (K % M) := by
  conv_lhs => rw [← Nat.div_add_mod K M]
  have h1 : s + 2 * (M * (K / M) + K % M) = s + 2 * (K % M) + (2 * M) * (K / M) := by ring
  rw [h1, Nat.add_mul_mod_self_left]
  have h2 : K % M < M := Nat.mod_lt _ hM
  exact Nat.mod_eq_of_lt (by omega)

theorem fullAddAux_toNat (a : List Bool) :
    ∀ b c, a.length = b.length →
      bitsToNat (fullAddAux a b c) = (bitsToNat a + bitsToNat b + c.toNat) % 2 ^ a.length := by
  induction a with
  | nil =>
      intro b c h
      cases b with
      | nil => simp [fullAddAux, bitsToNat, Nat.mod_one]
      | cons y ys => simp at h
  | cons x xs ih =>
      intro b c h
      cases b with
      | nil => simp at h
      | cons y ys =>
          simp only [List.length_cons, Nat.succ.injEq] at h
          have ihh := ih ys ((x && y) || (x && c) || (y && c)) h
          simp only [fullAddAux, bitsToNat, List.length_cons]
          rw [ihh]
          have hsplit := bool_add_split x y c
          have hpow : (2 : Nat) ^ (xs.length + 1) = 2 * 2 ^ xs.length := by
            rw [Nat.pow_succ]; ring
          rw [hpow]
          have hb : ∀ z : Bool, (if z then 1 else 0) = z.toNat := by intro z; cases z <;> rfl
          rw [hb x, hb y, hb (Bool.xor (Bool.xor x y) c)]
          have hM : 0 < 2 ^ xs.length := Nat.pos_pow_of_pos _ (by omega)
          have key := mod_double ((Bool.xor (Bool.xor x y) c).toNat)
            (bitsToNat xs + bitsToNat ys + ((x && y) || (x && c) || (y && c)).toNat)
            (2 ^ xs.length) (by cases (Bool.xor (Bool.xor x y) c) <;> simp) hM
          have harr : x.toNat + 2 * bitsToNat xs + (y.toNat + 2 * bitsToNat ys) + c.toNat =
              (Bool.xor (Bool.xor x y) c).toNat +
                2 * (bitsToNat xs + bitsToNat ys + ((x && y) || (x && c) || (y && c)).toNat) := by
            omega
          rw [harr, key]

theorem full_add_toNat (a b : List Bool) (h : a.length = b.length) :
    bitsToNat (full_add a b) = (bitsToNat a + bitsToNat b) % 2 ^ a.length := by
  have := fullAddAux_toNat a b false h
  simpa [full_add] using this

theorem take_append_replicate (l : List Bool) (s : Bool) (n : Nat) (h : l.length ≤ n) :
    (l ++ List.replicate n s).take n = l ++ List.replicate (n - l.length) s := by
  rw [List.take_append_eq_append_take, List.take_of_length_le h, List.take_replicate]
  congr 2
  omega

theorem replicate_any_ne (k : Nat) (s : Bool) :
    (List.replicate k s).any (fun b => b != s) = false := by
  induction k with
  | zero => simp
  | succ n ih => simp [List.replicate_succ, ih]

/-- C3: binary addition on two unsigned N-bit `TypedBits` values of the same
Kind produces the N-bit wrapped sum — the final carry is discarded, so the
result equals `(a + b) mod 2^N` with the same Kind; and for the kernel
`fn f(a: b8, b: b8) -> b8 { a + b }` executed in the VM with inputs 200 and
100, the result is 44 and every slot in the Object's kind map is `Bits(8)`. -/
theorem C3_add_wraps_mod_pow2 :
    (∀ (a b : TypedBits) (w : Nat),
        a.kind = .bits w → b.kind = .bits w →
        a.bits.length = w → b.bits.length = w →
        TypedBits.add a b = .ok { bits := full_add a.bits b.bits, kind := .bits w } ∧
        (full_add a.bits b.bits).length = w ∧
        bitsToNat (full_add a.bits b.bits) =
          (bitsToNat a.bits + bitsToNat b.bits) % 2 ^ w) ∧
    execute addKernelObject [ubits 8 200, ubits 8 100] = .ok (ubits 8 44) ∧
    (∀ p ∈ addKernelObject.kind, p.2 = Kind.bits 8) := by
  refine ⟨?_, ?_, ?_⟩
  · intro a b w hak hbk hal hbl
    refine ⟨?_, ?_, ?_⟩
    · simp [TypedBits.add, hak, hbk, Kind.is_composite]
    · rw [full_add, fullAddAux_length, hal, hbl, Nat.min_self]
    · rw [full_add_toNat a.bits b.bits (by rw [hal, hbl]), hal]
  · simp [execute, addKernelObject, validateArgs, loadArgs, execOps, execOp, vmRead, vmWrite,
      runtimeBinary, TypedBits.add, full_add, fullAddAux, ubits, natToBits, Kind.is_composite,
      TypedBits.EMPTY, lookupA, Kind.width]
  · intro p hp
    simp [addKernelObject] at hp
    rcases hp with h | h | h <;> simp [h]

/-- Witness for C3: the general wrapped-add statement applied to the concrete
8-bit inputs 200 and 100. -/
theorem C3_add_wraps_mod_pow2_witness :
    TypedBits.add (ubits 8 200) (ubits 8 100) =
      .ok { bits := full_add (ubits 8 200).bits (ubits 8 100).bits, kind := .bits 8 } ∧
    bitsToNat (full_add (ubits 8 200).bits (ubits 8 100).bits) =
      (bitsToNat (ubits 8 200).bits + bitsToNat (ubits 8 100).bits) % 2 ^ 8 := by
  have h := C3_add_wraps_mod_pow2.1 (ubits 8 200) (ubits 8 100) 8 rfl rfl (by decide) (by decide)
  exact ⟨h.1, h.2.2⟩

/-- C6: widening an unsigned (resp. signed) `TypedBits` value of width `w` to
any `n ≥ w` bits with `unsigned_cast` (resp. `signed_cast`) and casting back
to `w` bits with the same cast succeeds and reproduces the original value —
bit pattern and Kind — exactly. -/
theorem C6_cast_roundtrip (tb : TypedBits) (w n : Nat)
    (hlen : tb.bits.length = w) (hn : w ≤ n) :
    (tb.kind = .bits w →
      (tb.unsigned_cast n).bind (fun t => t.unsigned_cast w) = .ok tb) ∧
    (tb.kind = .signed w →
      (tb.signed_cast n).bind (fun t => t.signed_cast w) = .ok tb) := by
  obtain ⟨bs, k⟩ := tb
  simp only at hlen
  constructor
  · intro hk
    simp only at hk
    subst hk
    by_cases hgt : n > w
    · have h1 : TypedBits.unsigned_cast ⟨bs, .bits w⟩ n =
          .ok ⟨bs ++ List.replicate (n - w) false, .bits n⟩ := by
        simp only [TypedBits.unsigned_cast, Kind.width, hgt, if_pos]
        rw [take_append_replicate bs false n (by omega)]
        simp [hlen]
      rw [h1]
      simp only [Except.bind]
      have hwn : ¬ w > n := by omega
      simp only [TypedBits.unsigned_cast, Kind.width, hwn, if_neg, not_false_iff]
      rw [List.take_append_eq_append_take, List.drop_append_eq_append_drop]
      rw [List.take_of_length_le (by omega), List.drop_of_length_le (by omega)]
      simp [hlen, List.take_replicate, List.drop_replicate]
    · have heq : n = w := by omega
      subst heq
      have hwn : ¬ n > n := by omega
      simp only [TypedBits.unsigned_cast, Kind.width, hwn, if_neg, not_false_iff]
      rw [List.take_of_length_le (by omega), List.drop_of_length_le (by omega)]
      simp [Except.bind, TypedBits.unsigned_cast, Kind.width, hwn,
        List.take_of_length_le (show bs.length ≤ n by omega),
        List.drop_of_length_le (show bs.length ≤ n by omega)]
  · intro hk
    simp only at hk
    subst hk
    by_cases hgt : n > w
    · have h1 : TypedBits.signed_cast ⟨bs, .signed w⟩ n =
          .ok ⟨bs ++ List.replicate (n - w) (bs.getLast?.getD false), .signed n⟩ := by
        simp only [TypedBits.signed_cast, Kind.width, hgt, if_pos]
        rw [take_append_replicate bs _ n (by omega)]
        simp [hlen]
      rw [h1]
      simp only [Except.bind]
      have hwn : ¬ w > n := by omega
      simp only [TypedBits.signed_cast, Kind.width, hwn, if_neg, not_false_iff]
      rw [List.take_append_eq_append_take, List.drop_append_eq_append_drop]
      rw [List.take_of_length_le (by omega), List.drop_of_length_le (by omega)]
      simp only [hlen, Nat.sub_self, List.take_zero, List.append_nil, Nat.sub_zero,
        List.drop_replicate, List.nil_append]
      rw [replicate_any_ne]
      simp
    · have heq : n = w := by omega
      subst heq
      have hwn : ¬ n > n := by omega
      simp only [TypedBits.signed_cast, Kind.width, hwn, if_neg, not_false_iff]
      rw [List.take_of_length_le (by omega), List.drop_of_length_le (by omega)]
      simp [Except.bind, TypedBits.signed_cast, Kind.width, hwn,
        List.take_of_length_le (show bs.length ≤ n by omega),
        List.drop_of_length_le (show bs.length ≤ n by omega)]

/-- Witness for C6: round-tripping the unsigned 8-bit value 200 through width
16 and the signed 4-bit value with bits 0b101 through width 12. -/
theorem C6_cast_roundtrip_witness :
    ((ubits 8 200).unsigned_cast 16).bind (fun t => t.unsigned_cast 8) = .ok (ubits 8 200) ∧
    (TypedBits.signed_cast ⟨[true, false, true], .signed 3⟩ 12).bind
      (fun t => t.signed_cast 3) = .ok ⟨[true, false, true], .signed 3⟩ :=
  ⟨(C6_cast_roundtrip (ubits 8 200) 8 16 (by decide) (by omega)).1 rfl,
   (C6_cast_roundtrip ⟨[true, false, true], .signed 3⟩ 3 12 (by decide) (by omega)).2 rfl⟩

/-- C10 (counterexample): the claim says a shift errors exactly when the
shift amount is not unsigned or is at least the bit width.  But (i) a shift of
a composite value errors even for an unsigned, in-range shift amount, and
(ii) the unsigned shift amount `2^63` — far larger than the width 8 — is
accepted, because its `i64` reinterpretation is negative and slips past the
bound check, producing an all-zero result. -/
theorem C10_shift_counterexample :
    TypedBits.shl tuplePair shiftZero = .error .cannotApplyShiftOperationToComposite ∧
    shiftZero.kind.is_unsigned = true ∧
    TypedBits.as_i64 shiftZero = .ok 0 ∧
    (0 : Int) < (tuplePair.bits.length : Int) ∧
    TypedBits.shl (ubits 8 7) hugeShift =
      .ok { bits := List.replicate 8 false, kind := .bits 8 } ∧
    bitsToNat hugeShift.bits = 2 ^ 63 ∧ (ubits 8 7).bits.length = 8 := by
  refine ⟨?_, ?_, ?_, ?_, ?_, ?_, ?_⟩
  · simp [TypedBits.shl, tuplePair, shiftZero, Kind.is_composite]
  · simp [shiftZero, Kind.is_unsigned]
  · simp [TypedBits.as_i64, shiftZero, TypedBits.unsigned_cast, Kind.width, i64OfBits64,
      bitsToNat, Except.map]
  · simp [tuplePair]
  · simp [TypedBits.shl, hugeShift, ubits, natToBits, Kind.is_composite, Kind.is_unsigned,
      TypedBits.as_i64, TypedBits.unsigned_cast, Kind.width, i64OfBits64, bitsToNat,
      usizeOfI64, bits_shl, Except.map, Nat.min_def]
  · simp [hugeShift, ubits, natToBits, bitsToNat]
  · simp [ubits, natToBits]

/-- C10 (amended): for a well-formed shift amount, a left or right shift
errors exactly when the shifted value's kind is composite, the shift amount's
kind is not unsigned, or the shift amount's `i64` reinterpretation fails or is
at least the shifted value's bit length (shift amounts of `2^63` and above
reinterpret as negative and are accepted); otherwise the shift succeeds and
preserves the shifted value's Kind. -/
theorem C10_shift_partiality_amended (a b : TypedBits)
    (hwf : b.bits.length = b.kind.width) :
    (((∃ c, a.shl b = .ok c) ↔
        (a.kind.is_composite = false ∧ b.kind.is_unsigned = true ∧
         ∃ v, b.as_i64 = .ok v ∧ v < (a.bits.length : Int))) ∧
      (∀ c, a.shl b = .ok c → c.kind = a.kind)) ∧
    (((∃ c, a.shr b = .ok c) ↔
        (a.kind.is_composite = false ∧ b.kind.is_unsigned = true ∧
         ∃ v, b.as_i64 = .ok v ∧ v < (a.bits.length : Int))) ∧
      (∀ c, a.shr b = .ok c → c.kind = a.kind)) := by
  clear hwf
  by_cases hcomp : a.kind.is_composite
  · simp [TypedBits.shl, TypedBits.shr, hcomp]
  · by_cases hu : b.kind.is_unsigned
    · rcases hi : b.as_i64 with e | v
      · simp [TypedBits.shl, TypedBits.shr, hcomp, hu, hi]
      · by_cases hlt : v < (a.bits.length : Int)
        · have hge : ¬ v ≥ (a.bits.length : Int) := by omega
          by_cases hsg : a.kind.is_signed <;>
            simp [TypedBits.shl, TypedBits.shr, hcomp, hu, hi, hge, hsg, hlt]
        · have hge : v ≥ (a.bits.length : Int) := by omega
          simp [TypedBits.shl, TypedBits.shr, hcomp, hu, hi, hge, hlt]
    · simp [TypedBits.shl, TypedBits.shr, hcomp, hu]

/-- Witness for the amended C10: shifting the unsigned 8-bit value 3 by the
in-range unsigned amount 0 succeeds with an unchanged kind. -/
theorem C10_shift_partiality_amended_witness :
    (∃ c, TypedBits.shl (ubits 8 3) shiftZero = .ok c) ∧
    (∀ c, TypedBits.shl (ubits 8 3) shiftZero = .ok c → c.kind = (ubits 8 3).kind) := by
  have h := C10_shift_partiality_amended (ubits 8 3) shiftZero
    (by simp [shiftZero, Kind.width])
  refine ⟨h.1.1.mpr ⟨?_, ?_, 0, ?_, ?_⟩, h.1.2⟩
  · simp [ubits, Kind.is_composite]
  · simp [shiftZero, Kind.is_unsigned]
  · simp [TypedBits.as_i64, shiftZero, TypedBits.unsigned_cast, Kind.width, i64OfBits64,
      bitsToNat, Except.map]
  · simp [ubits, natToBits]

/-- C2: an integer literal left unconstrained by the fixed point is defaulted
deterministically to a 32-bit signed value: the first defaulting rule turns an
unsized integer into the 32-bit signed-or-unsigned placeholder, the second
collapses a still-undetermined sign flag to signed, and no other width is
ever produced. -/
theorem C2_literal_defaulting (lits : List LitTy) (i : Nat)
    (h : lits.get? i = some .integer) :
    (inferDefaultLiterals lits).get? i = some (.signed 32) := by
  have hmem : LitTy.integer ∈ lits := List.get?_mem h
  have hnall : lits.all LitTy.isResolved = false := by
    rcases hall : lits.all LitTy.isResolved with _ | _
    · rfl
    · exfalso
      have := (List.all_eq_true.mp hall) _ hmem
      simp [LitTy.isResolved] at this
  have hmem2 : LitTy.maybeSigned 32 ∈ lits.map defaultStage1 := by
    refine List.mem_map.mpr ⟨.integer, hmem, ?_⟩
    simp [defaultStage1, LitTy.is_unsized_integer]
  have hnall2 : (lits.map defaultStage1).all LitTy.isResolved = false := by
    rcases hall : (lits.map defaultStage1).all LitTy.isResolved with _ | _
    · rfl
    · exfalso
      have := (List.all_eq_true.mp hall) _ hmem2
      simp [LitTy.isResolved] at this
  simp only [inferDefaultLiterals, hnall, if_neg, Bool.false_eq_true, not_false_iff, hnall2]
  rw [List.get?_map, List.get?_map, h]
  simp [defaultStage1, defaultStage2, LitTy.is_unsized_integer]

/-- Witness for C2: the single unconstrained literal defaults to `s32`. -/
theorem C2_literal_defaulting_witness :
    (inferDefaultLiterals [.integer]).get? 0 = some (.signed 32) :=
  C2_literal_defaulting [.integer] 0 rfl

theorem unifyClockChain_concrete (cs : List Color) :
    ∀ s, unifyClockChain s (cs.map ClockTy.color) =
      if cs.Chain' (· = ·) then some s else none := by
  induction cs with
  | nil => intro s; simp [unifyClockChain]
  | cons c1 rest ih =>
      intro s
      cases rest with
      | nil => simp [unifyClockChain]
      | cons c2 rest2 =>
          simp only [List.map_cons, unifyClockChain, unifyClock, resolveClock]
          by_cases h12 : c1 = c2
          · rw [if_pos h12]
            show unifyClockChain s (List.map ClockTy.color (c2 :: rest2)) =
              if (c1 :: c2 :: rest2).Chain' (· = ·) then some s else none
            rw [ih s]
            by_cases hch : (c2 :: rest2).Chain' (· = ·)
            · rw [if_pos hch, if_pos (List.chain'_cons.mpr ⟨h12, hch⟩)]
            · rw [if_neg hch, if_neg (fun hh => hch (List.chain'_cons.mp hh).2)]
          · rw [if_neg h12, if_neg (fun hh => h12 (List.chain'_cons.mp hh).1)]

theorem filterMap_clock_concrete (tys : List MTy)
    (h : ∀ t ∈ tys, t.concreteClocked = true) :
    tys.filterMap MTy.project_signal_clock = (presentColors tys).map ClockTy.color := by
  induction tys with
  | nil => simp [presentColors]
  | cons t rest ih =>
      have ht : t.concreteClocked = true := h t (by simp)
      have hrest := ih (fun x hx => h x (by simp [hx]))
      cases t with
      | notSignal i =>
          simp [List.filterMap_cons, MTy.project_signal_clock, presentColors,
            List.filterMap_cons] at hrest ⊢
          exact hrest
      | signal i clock =>
          cases clock with
          | var n => simp [MTy.concreteClocked] at ht
          | color c =>
              simp [List.filterMap_cons, MTy.project_signal_clock, presentColors,
                List.filterMap_cons] at hrest ⊢
              exact hrest

/-- C1: for a select operation, if the clock colors present among the
selector, true-value and false-value operands are pairwise identical the
clock check passes; otherwise type inference fails with a clock-coherence
violation carrying one labeled source span per contributing operand
(selector, true value, false value) plus the span of the causing
expression.  (Stated for operands whose clocks are concrete colors, which is
what "the clock colors present among the operands" refers to.) -/
theorem C1_select_clock_coherence (s : ClockSubst) (id : Nat) (sel tv fv : MTy)
    (hsel : sel.concreteClocked = true) (htv : tv.concreteClocked = true)
    (hfv : fv.concreteClocked = true) :
    ((presentColors [sel, tv, fv]).Pairwise (· = ·) →
       trySelect s id sel tv fv = .ok s) ∧
    (¬ (presentColors [sel, tv, fv]).Pairwise (· = ·) →
       trySelect s id sel tv fv = .error
         { elements :=
             [ { role := .selector, domain := clockDomainForError s sel, span := sel.node },
               { role := .trueValue, domain := clockDomainForError s tv, span := tv.node },
               { role := .falseValue, domain := clockDomainForError s fv, span := fv.node } ],
           cause_span := id }) := by
  have hconc : ∀ t ∈ [sel, tv, fv], t.concreteClocked = true := by
    intro t ht
    simp only [List.mem_cons, List.mem_singleton] at ht
    rcases ht with rfl | rfl | rfl | h
    · exact hsel
    · exact htv
    · exact hfv
    · cases h
  have hfm := filterMap_clock_concrete [sel, tv, fv] hconc
  have hchain := unifyClockChain_concrete (presentColors [sel, tv, fv]) s
  have hpw : (presentColors [sel, tv, fv]).Chain' (· = ·) ↔
      (presentColors [sel, tv, fv]).Pairwise (· = ·) :=
    List.chain'_iff_pairwise
  constructor
  · intro hp
    simp only [trySelect, enforceClocks, hfm, hchain, if_pos (hpw.mpr hp)]
  · intro hp
    simp only [trySelect, enforceClocks, hfm, hchain,
      if_neg (fun hc => hp (hpw.mp hc))]

/-- Witness for C1: the Red/Green select of the claim — a selector with no
clock, a Red-domain true value and a Green-domain false value — is rejected
with the three labeled spans and the causing expression's span. -/
theorem C1_select_clock_coherence_witness :
    trySelect [] 99 (.notSignal 1) (.signal 2 (.color .red)) (.signal 3 (.color .green)) =
      .error
        { elements :=
            [ { role := .selector, domain := none, span := 1 },
              { role := .trueValue, domain := some .red, span := 2 },
              { role := .falseValue, domain := some .green, span := 3 } ],
          cause_span := 99 } := by
  have h := (C1_select_clock_coherence [] 99 (.notSignal 1) (.signal 2 (.color .red))
    (.signal 3 (.color .green)) rfl rfl rfl).2 (by decide)
  simpa [clockDomainForError, MTy.project_signal_clock, resolveClock, MTy.node] using h

/-- C7 (counterexample): the completeness pass accepts an object whose kind
map has no entry for a used slot, as long as the symbol table covers every
used slot — contradicting the claim that the pass also checks for a concrete
Kind in the kind map. -/
theorem C7_kind_map_not_checked_counterexample :
    symbolTableIsComplete kindlessObject = .ok kindlessObject ∧
    Slot.register 0 ∈ usedSlots kindlessObject ∧
    lookupA kindlessObject.kind (.register 0) = none := by
  refine ⟨?_, ?_, ?_⟩
  · simp [symbolTableIsComplete, usedSlots, kindlessObject, opSlots, lookupA,
      slotErrPayload, List.find?]
  · simp [usedSlots, kindlessObject, opSlots]
  · simp [kindlessObject, lookupA]

/-- C7 (amended): the completeness pass checks that every slot appearing in
any operation, plus the argument slots and the return slot, has an entry in
the *symbol table*; it fails with an internal-compiler-error naming a missing
slot and returns the object unchanged on success.  It does not consult the
kind map. -/
theorem C7_symbol_table_check_amended (obj : Object) :
    ((∀ s ∈ usedSlots obj, (lookupA obj.symbols.slot_map s).isSome) →
       symbolTableIsComplete obj = .ok obj) ∧
    (∀ s, s ∈ usedSlots obj → lookupA obj.symbols.slot_map s = none →
       ∃ s2, s2 ∈ usedSlots obj ∧ lookupA obj.symbols.slot_map s2 = none ∧
         symbolTableIsComplete obj =
           .error (.iceSymbolTableIsIncomplete (slotErrPayload s2).1 (slotErrPayload s2).2)) := by
  constructor
  · intro hall
    have hnone : (usedSlots obj).find?
        (fun s => (lookupA obj.symbols.slot_map s).isNone) = none := by
      rw [List.find?_eq_none]
      intro x hx
      have := hall x hx
      simp [Option.isNone_iff_eq_none]
      rcases hlk : lookupA obj.symbols.slot_map x with _ | v
      · rw [hlk] at this; simp at this
      · simp
    simp [symbolTableIsComplete, hnone]
  · intro s hs hnone
    have hsome : ((usedSlots obj).find?
        (fun s => (lookupA obj.symbols.slot_map s).isNone)).isSome := by
      rw [List.find?_isSome]
      exact ⟨s, hs, by simp [hnone]⟩
    rcases hfind : (usedSlots obj).find?
        (fun s => (lookupA obj.symbols.slot_map s).isNone) with _ | s2
    · rw [hfind] at hsome; simp at hsome
    · refine ⟨s2, List.mem_of_find?_eq_some hfind, ?_, ?_⟩
      · have := List.find?_some hfind
        simpa [Option.isNone_iff_eq_none] using this
      · simp [symbolTableIsComplete, hfind]

/-- Witness for the amended C7: `kindlessObject` has a complete symbol table,
so the pass returns it unchanged. -/
theorem C7_symbol_table_check_amended_witness :
    symbolTableIsComplete kindlessObject = .ok kindlessObject :=
  (C7_symbol_table_check_amended kindlessObject).1 (by decide)

theorem transformMuxOp_idem (lits : List (Nat × TypedBits)) (lop lop2 : LocatedOpCode)
    (h : transformMuxOp lits lop = .ok lop2) :
    transformMuxOp lits lop2 = .ok lop2 := by
  obtain ⟨op, node⟩ := lop
  cases op with
  | select lhs cond tv fv =>
      rcases hcl : cond.as_literal with _ | l
      · simp only [transformMuxOp, hcl] at h
        by_cases htf : tv = fv
        · rw [if_pos htf] at h
          cases h
          simp [transformMuxOp]
        · rw [if_neg htf] at h
          cases h
          simp [transformMuxOp, hcl, htf]
      · rcases hlk : lookupA lits l with _ | val
        · simp [transformMuxOp, hcl, hlk] at h
        · rcases hb : val.as_bool with e | b
          · simp [transformMuxOp, hcl, hlk, hb] at h
          · simp only [transformMuxOp, hcl, hlk, hb] at h
            cases b <;> simp at h <;> subst h <;> simp [transformMuxOp]
  | noop => cases h; simp [transformMuxOp]
  | comment t => cases h; simp [transformMuxOp]
  | binary o a b c => cases h; simp [transformMuxOp]
  | unary o a b => cases h; simp [transformMuxOp]
  | assign a b => cases h; simp [transformMuxOp]
  | asBits a b l => cases h; simp [transformMuxOp]
  | asSigned a b l => cases h; simp [transformMuxOp]
  | exec a i as_ => cases h; simp [transformMuxOp]
  | tuple a fs => cases h; simp [transformMuxOp]
  | repeatOp a b l => cases h; simp [transformMuxOp]

theorem transformMuxOps_get (lits : List (Nat × TypedBits)) :
    ∀ (ops ops2 : List LocatedOpCode), transformMuxOps lits ops = .ok ops2 →
      ∀ i lop, ops.get? i = some lop →
        ∃ lop2, transformMuxOp lits lop = .ok lop2 ∧ ops2.get? i = some lop2 := by
  intro ops
  induction ops with
  | nil =>
      intro ops2 h i lop hget
      simp at hget
  | cons a rest ih =>
      intro ops2 h i lop hget
      simp only [transformMuxOps] at h
      rcases ha : transformMuxOp lits a with e | a2
      · rw [ha] at h; cases h
      · rw [ha] at h
        rcases hrest : transformMuxOps lits rest with e | rest2
        · rw [hrest] at h; cases h
        · rw [hrest] at h
          cases h
          cases i with
          | zero =>
              simp at hget
              subst hget
              exact ⟨a2, ha, rfl⟩
          | succ i =>
              simp only [List.get?_cons_succ] at hget ⊢
              exact ih rest2 hrest i lop hget

theorem transformMuxOps_idem (lits : List (Nat × TypedBits)) :
    ∀ (ops ops2 : List LocatedOpCode), transformMuxOps lits ops = .ok ops2 →
      transformMuxOps lits ops2 = .ok ops2 := by
  intro ops
  induction ops with
  | nil =>
      intro ops2 h
      cases h
      rfl
  | cons a rest ih =>
      intro ops2 h
      simp only [transformMuxOps] at h
      rcases ha : transformMuxOp lits a with e | a2
      · rw [ha] at h; cases h
      · rw [ha] at h
        rcases hrest : transformMuxOps lits rest with e | rest2
        · rw [hrest] at h; cases h
        · rw [hrest] at h
          cases h
          simp only [transformMuxOps, transformMuxOp_idem lits a a2 ha, ih rest2 hrest]

/-- C5: whenever the mux-removal pass succeeds, every `Select` whose two
branch slots are the same slot has been rewritten to a plain `Assign` of that
slot to the `Select` destination, and the pass is idempotent — running it on
its own output returns the output unchanged. -/
theorem C5_same_branch_select_rewritten (obj obj2 : Object)
    (h : removeUnneededMuxes obj = .ok obj2) :
    (∀ i lhs cond tv nid,
       obj.ops.get? i = some ⟨.select lhs cond tv tv, nid⟩ →
       obj2.ops.get? i = some ⟨.assign lhs tv, nid⟩) ∧
    removeUnneededMuxes obj2 = .ok obj2 := by
  simp only [removeUnneededMuxes] at h
  rcases hops : transformMuxOps obj.literals obj.ops with e | ops2
  · rw [hops] at h; cases h
  · rw [hops] at h
    cases h
    constructor
    · intro i lhs cond tv nid hget
      obtain ⟨lop2, htr, hget2⟩ := transformMuxOps_get obj.literals obj.ops ops2 hops i _ hget
      rcases hcl : cond.as_literal with _ | l
      · simp only [transformMuxOp, hcl, if_pos rfl] at htr
        cases htr
        exact hget2
      · rcases hlk : lookupA obj.literals l with _ | val
        · simp [transformMuxOp, hcl, hlk] at htr
        · rcases hb : val.as_bool with e | b
          · simp [transformMuxOp, hcl, hlk, hb] at htr
          · simp only [transformMuxOp, hcl, hlk, hb] at htr
            cases b <;> simp at htr <;> subst htr <;> exact hget2
    · simp only [removeUnneededMuxes]
      rw [transformMuxOps_idem obj.literals obj.ops ops2 hops]

/-- Witness for C5: the concrete `Select` with identical branches becomes an
`Assign`, and a second pass run is the identity. -/
theorem C5_same_branch_select_rewritten_witness :
    sameBranchTransformed.ops.get? 0 =
      some ⟨.assign (.register 1) (.register 2), 7⟩ ∧
    removeUnneededMuxes sameBranchTransformed = .ok sameBranchTransformed := by
  have hrun : removeUnneededMuxes sameBranchObject = .ok sameBranchTransformed := by
    simp [removeUnneededMuxes, transformMuxOps, transformMuxOp, sameBranchObject,
      sameBranchTransformed, Slot.as_literal]
  have h := C5_same_branch_select_rewritten sameBranchObject sameBranchTransformed hrun
  exact ⟨h.1 0 _ _ _ _ rfl, h.2⟩

theorem validateArgs_first_mismatch (name : String) (km : List (Slot × Kind)) :
    ∀ (i : Nat) (rs : List Nat) (vs : List TypedBits) (n r : Nat) (a : TypedBits) (k : Kind),
      rs.get? i = some r → vs.get? i = some a →
      lookupA km (Slot.register r) = some k → k ≠ a.kind →
      (∀ j, j < i → ∀ rj aj, rs.get? j = some rj → vs.get? j = some aj →
         ∃ kj, lookupA km (Slot.register rj) = some kj ∧ kj = aj.kind) →
      validateArgs name km n rs vs = .error (.argumentKindMismatch name (n + i) k a.kind) := by
  intro i
  induction i with
  | zero =>
      intro rs vs n r a k hr ha hk hne _hprev
      cases rs with
      | nil => simp at hr
      | cons r0 rs2 =>
          cases vs with
          | nil => simp at ha
          | cons a0 vs2 =>
              simp only [List.get?_cons_zero, Option.some.injEq] at hr ha
              subst hr
              subst ha
              simp [validateArgs, hk, hne]
  | succ i ih =>
      intro rs vs n r a k hr ha hk hne hprev
      cases rs with
      | nil => simp at hr
      | cons r0 rs2 =>
          cases vs with
          | nil => simp at ha
          | cons a0 vs2 =>
              obtain ⟨k0, hk0, hk0eq⟩ := hprev 0 (by omega) r0 a0 rfl rfl
              simp only [List.get?_cons_succ] at hr ha
              have hrec := ih rs2 vs2 (n + 1) r a k hr ha hk hne
                (fun j hj rj aj hrj haj => hprev (j + 1) (by omega) rj aj
                  (by simpa using hrj) (by simpa using haj))
              simp only [validateArgs, hk0]
              rw [if_neg (by simp [hk0eq])]
              rw [hrec]
              have hn : n + 1 + i = n + (i + 1) := by omega
              rw [hn]

/-- C9: the VM entry point validates, before executing any opcode, that the
argument count matches and that each argument's Kind equals the Kind recorded
for the corresponding argument slot; a count mismatch reports the function
name with the expected and supplied counts, and the first Kind mismatch
reports the function name, the argument index and the two Kinds.  In either
case the result is the same for every op list, i.e. no operation of the
Object is executed. -/
theorem C9_vm_argument_validation (obj : Object) (args : List TypedBits) :
    (obj.arguments.length ≠ args.length →
       ∀ ops2, execute { obj with ops := ops2 } args =
         .error (.argumentCountMismatch obj.name obj.arguments.length args.length)) ∧
    (∀ ndx r a k,
       obj.arguments.get? ndx = some r → args.get? ndx = some a →
       lookupA obj.kind (.register r) = some k → k ≠ a.kind →
       (∀ j, j < ndx → ∀ rj aj, obj.arguments.get? j = some rj → args.get? j = some aj →
          ∃ kj, lookupA obj.kind (.register rj) = some kj ∧ kj = aj.kind) →
       obj.arguments.length = args.length →
       ∀ ops2, execute { obj with ops := ops2 } args =
         .error (.argumentKindMismatch obj.name ndx k a.kind)) := by
  constructor
  · intro hne ops2
    simp only [execute]
    rw [if_pos hne]
  · intro ndx r a k hr ha hk hkne hprev hlen ops2
    have hv := validateArgs_first_mismatch obj.name obj.kind ndx obj.arguments args 0 r a k
      hr ha hk hkne hprev
    simp only [execute]
    rw [if_neg (by simpa using hlen)]
    simp only [Nat.zero_add] at hv
    rw [hv]

/-- Witness for C9: calling the `b8` add kernel with no arguments reports the
count mismatch, and calling it with a `b4` first argument reports the Kind
mismatch at index 0 — in both cases even with the op list emptied, showing no
op runs. -/
theorem C9_vm_argument_validation_witness :
    execute { addKernelObject with ops := [] } [] =
      .error (.argumentCountMismatch "f" 2 0) ∧
    execute { addKernelObject with ops := [] } [ubits 4 0, ubits 8 1] =
      .error (.argumentKindMismatch "f" 0 (.bits 8) (.bits 4)) := by
  constructor
  · have h := (C9_vm_argument_validation addKernelObject []).1 (by simp [addKernelObject]) []
    simpa [addKernelObject] using h
  · have h := (C9_vm_argument_validation addKernelObject [ubits 4 0, ubits 8 1]).2 0 0
      (ubits 4 0) (.bits 8) (by simp [addKernelObject]) rfl
      (by simp [addKernelObject, lookupA]) (by simp [ubits])
      (fun j hj => by omega) (by simp [addKernelObject]) []
    simpa [addKernelObject, ubits] using h

theorem Slot.as_literal_some {s : Slot} {l : Nat} (h : s.as_literal = some l) :
    s = .literal l := by
  cases s with
  | literal i =>
      simp [Slot.as_literal] at h
      rw [h]
  | register i => simp [Slot.as_literal] at h
  | empty => simp [Slot.as_literal] at h

theorem lookupA_mem {A : Type} [DecidableEq A] {B : Type} :
    ∀ (l : List (A × B)) (k : A) (v : B), lookupA l k = some v → (k, v) ∈ l := by
  intro l
  induction l with
  | nil => intro k v h; simp [lookupA] at h
  | cons p rest ih =>
      intro k v h
      obtain ⟨a, b⟩ := p
      simp only [lookupA] at h
      by_cases hk : k = a
      · rw [if_pos hk] at h
        simp only [Option.some.injEq] at h
        subst hk
        subst h
        exact List.mem_cons_self _ _
      · rw [if_neg hk] at h
        exact List.mem_cons_of_mem _ (ih k v h)

theorem Kind.is_bool_eq {k : Kind} (h : k.is_bool = true) : k = .bits 1 := by
  cases k with
  | bits n =>
      cases n with
      | zero => simp [Kind.is_bool] at h
      | succ m =>
          cases m with
          | zero => rfl
          | succ m2 => simp [Kind.is_bool] at h
  | signed n => simp [Kind.is_bool] at h
  | tuple es => simp [Kind.is_bool] at h
  | empty => simp [Kind.is_bool] at h
  | signal b c => simp [Kind.is_bool] at h

theorem as_bool_ok {tb : TypedBits} {b : Bool} (h : tb.as_bool = .ok b) :
    tb.kind = .bits 1 ∧ ∃ rest, tb.bits = b :: rest := by
  unfold TypedBits.as_bool at h
  by_cases hib : tb.kind.is_bool
  · rw [if_pos hib] at h
    rcases hbits : tb.bits with _ | ⟨x, rest⟩
    · rw [hbits] at h
      exact Except.noConfusion h
    · rw [hbits] at h
      simp only [Except.ok.injEq] at h
      subst h
      exact ⟨Kind.is_bool_eq hib, rest, rfl⟩
  · rw [if_neg hib] at h
    exact Except.noConfusion h

theorem any_as_bool (tb : TypedBits) :
    (TypedBits.any tb).as_bool = .ok (tb.bits.any id) := by
  simp [TypedBits.any, boolTB, TypedBits.as_bool, Kind.is_bool]

theorem execOp_transform_preserves (lits : List (Nat × TypedBits)) (ext : List Object)
    (hwf : ∀ p ∈ lits, (p.2).bits.length = (p.2).kind.width)
    (lop lop2 : LocatedOpCode) (ht : transformMuxOp lits lop = .ok lop2) :
    ∀ reg reg2, execOp lits ext reg lop.op = .ok reg2 →
      execOp lits ext reg lop2.op = .ok reg2 := by
  intro reg reg2 hex
  obtain ⟨op, node⟩ := lop
  cases op with
  | select lhs cond tv fv =>
      rcases hcl : cond.as_literal with _ | l
      · simp only [transformMuxOp, hcl] at ht
        by_cases htf : tv = fv
        · rw [if_pos htf] at ht
          simp only [Except.ok.injEq] at ht
          subst ht
          subst htf
          simp only [execOp] at hex ⊢
          rcases hc : vmRead lits reg cond with e | cv
          · simp only [hc] at hex
            exact Except.noConfusion hex
          · simp only [hc] at hex
            rcases htv : vmRead lits reg tv with e | tvv
            · simp only [htv] at hex
              exact Except.noConfusion hex
            · simp only [htv] at hex
              rcases hab : cv.any.as_bool with e | b
              · simp only [hab] at hex
                exact Except.noConfusion hex
              · simp only [hab] at hex
                cases b <;> simpa using hex
        · rw [if_neg htf] at ht
          simp only [Except.ok.injEq] at ht
          subst ht
          exact hex
      · have hcond : cond = .literal l := Slot.as_literal_some hcl
        subst hcond
        simp only [transformMuxOp, Slot.as_literal] at ht
        rcases hlk : lookupA lits l with _ | val
        · simp only [hlk] at ht
          exact Except.noConfusion ht
        · simp only [hlk] at ht
          rcases hb : val.as_bool with e | b
          · simp only [hb] at ht
            exact Except.noConfusion ht
          · simp only [hb] at ht
            obtain ⟨hkind, rest, hbits⟩ := as_bool_ok hb
            have hvmem := lookupA_mem lits l val hlk
            have hlen : val.bits.length = val.kind.width := hwf (l, val) hvmem
            rw [hkind, hbits] at hlen
            simp only [Kind.width, List.length_cons] at hlen
            have hrest : rest = [] := by
              have : rest.length = 0 := by omega
              exact List.length_eq_zero.mp this
            have hvalbits : val.bits = [b] := by rw [hbits, hrest]
            have hcr : vmRead lits reg (Slot.literal l) = .ok val := by
              simp [vmRead, hlk]
            simp only [execOp, hcr] at hex
            rcases htv : vmRead lits reg tv with e | tvv
            · simp only [htv] at hex
              exact Except.noConfusion hex
            · simp only [htv] at hex
              rcases hfv : vmRead lits reg fv with e | fvv
              · simp only [hfv] at hex
                exact Except.noConfusion hex
              · simp only [hfv] at hex
                have hany : (TypedBits.any val).as_bool = .ok b := by
                  rw [any_as_bool, hvalbits]
                  simp
                simp only [hany] at hex
                cases b with
                | false =>
                    simp only [Bool.false_eq_true, if_false] at ht hex
                    simp only [Except.ok.injEq] at ht
                    subst ht
                    simp only [execOp, hfv]
                    simpa using hex
                | true =>
                    simp only [if_true] at ht hex
                    simp only [Except.ok.injEq] at ht
                    subst ht
                    simp only [execOp, htv]
                    simpa using hex
  | noop => cases ht; exact hex
  | comment t => cases ht; exact hex
  | binary o a b c => cases ht; exact hex
  | unary o a b => cases ht; exact hex
  | assign a b => cases ht; exact hex
  | asBits a b l => cases ht; exact hex
  | asSigned a b l => cases ht; exact hex
  | exec a i as_ => cases ht; exact hex
  | tuple a fs => cases ht; exact hex
  | repeatOp a b l => cases ht; exact hex

theorem execOps_transform_preserves (lits : List (Nat × TypedBits)) (ext : List Object)
    (hwf : ∀ p ∈ lits, (p.2).bits.length = (p.2).kind.width) :
    ∀ (ops ops2 : List LocatedOpCode) (reg reg2 : RegFile),
      transformMuxOps lits ops = .ok ops2 →
      execOps lits ext ops reg = .ok reg2 →
      execOps lits ext ops2 reg = .ok reg2 := by
  intro ops
  induction ops with
  | nil =>
      intro ops2 reg reg2 ht hex
      cases ht
      exact hex
  | cons a rest ih =>
      intro ops2 reg reg2 ht hex
      simp only [transformMuxOps] at ht
      rcases ha : transformMuxOp lits a with e | a2
      · rw [ha] at ht
        exact Except.noConfusion ht
      · rw [ha] at ht
        rcases hrest : transformMuxOps lits rest with e | rest2
        · rw [hrest] at ht
          exact Except.noConfusion ht
        · rw [hrest] at ht
          simp only [Except.ok.injEq] at ht
          subst ht
          simp only [execOps] at hex ⊢
          rcases hstep : execOp lits ext reg a.op with e | regm
          · simp only [hstep] at hex
            exact Except.noConfusion hex
          · simp only [hstep] at hex
            rw [execOp_transform_preserves lits ext hwf a a2 ha reg regm hstep]
            exact ih rest2 regm reg2 hrest hex

/-- C4 (counterexample): replacing the literal-condition `Select` by the
`Assign` of the taken branch changes the VM result on this Object — the
original execution fails (it reads the uninitialized register 5 held in the
untaken branch) while the rewritten one succeeds.  The literal table is
well-formed, so this is not an artifact of malformed literals. -/
theorem C4_literal_select_rewrite_counterexample :
    execute muxCexObject [] = .error (.iceRegisterNotInitialized 5) ∧
    removeUnneededMuxes muxCexObject = .ok muxCexTransformed ∧
    execute muxCexTransformed [] = .ok (ubits 8 42) ∧
    wfLiterals muxCexObject := by
  refine ⟨?_, ?_, ?_, ?_⟩
  · simp [execute, muxCexObject, validateArgs, loadArgs, execOps, execOp, vmRead, vmWrite,
      TypedBits.any, TypedBits.as_bool, boolTB, Kind.is_bool, ubits, natToBits,
      TypedBits.EMPTY, lookupA]
  · simp [removeUnneededMuxes, transformMuxOps, muxCexObject, muxCexTransformed,
      transformMuxOp, Slot.as_literal, lookupA, TypedBits.as_bool, Kind.is_bool, ubits,
      natToBits]
  · simp [execute, muxCexTransformed, muxCexObject, validateArgs, loadArgs, execOps, execOp,
      vmRead, vmWrite, ubits, natToBits, TypedBits.EMPTY, lookupA]
  · intro p hp
    simp only [muxCexObject, wfLiterals, List.mem_cons, List.mem_singleton] at hp
    rcases hp with h | h | h
    · subst h; simp [Kind.width]
    · subst h; simp [ubits, natToBits, Kind.width]
    · cases h

/-- C4 (amended): on an Object with a well-formed literal table, the
mux-removal rewrite of literal-condition `Select`s preserves every
*successful* VM execution: whenever the original Object executes to a value,
the rewritten Object executes to the same value.  (The rewrite can turn a
failing execution into a successful one — it drops the read of the untaken
branch — as the counterexample shows, so "unchanged for every input" only
holds of successful runs.) -/
theorem C4_mux_removal_preserves_success (obj obj2 : Object) (args : List TypedBits)
    (r : TypedBits) (hwf : wfLiterals obj)
    (hpass : removeUnneededMuxes obj = .ok obj2)
    (hex : execute obj args = .ok r) :
    execute obj2 args = .ok r := by
  simp only [removeUnneededMuxes] at hpass
  rcases hops : transformMuxOps obj.literals obj.ops with e | ops2
  · rw [hops] at hpass
    exact Except.noConfusion hpass
  · rw [hops] at hpass
    simp only [Except.ok.injEq] at hpass
    subst hpass
    simp only [execute] at hex ⊢
    by_cases hcnt : obj.arguments.length ≠ args.length
    · rw [if_pos hcnt] at hex
      exact Except.noConfusion hex
    · rw [if_neg hcnt] at hex ⊢
      rcases hval : validateArgs obj.name obj.kind 0 obj.arguments args with e | u
      · simp only [hval] at hex
        exact Except.noConfusion hex
      · simp only [hval] at hex ⊢
        rcases hrun : execOps obj.literals obj.externals obj.ops
            (loadArgs [] obj.arguments args) with e | regF
        · simp only [hrun] at hex
          exact Except.noConfusion hex
        · simp only [hrun] at hex
          rw [execOps_transform_preserves obj.literals obj.externals hwf obj.ops ops2
            (loadArgs [] obj.arguments args) regF hops hrun]
          exact hex

/-- Witness for the amended C4: the all-literal select object and its rewrite
both execute to `42 : b8`. -/
theorem C4_mux_removal_preserves_success_witness :
    execute muxOkTransformed [] = .ok (ubits 8 42) := by
  refine C4_mux_removal_preserves_success muxOkObject muxOkTransformed [] (ubits 8 42)
    ?_ ?_ ?_
  · intro p hp
    simp only [muxOkObject, muxCexObject, wfLiterals, List.mem_cons, List.mem_singleton] at hp
    rcases hp with h | h | h
    · subst h; simp [Kind.width]
    · subst h; simp [ubits, natToBits, Kind.width]
    · cases h
  · simp [removeUnneededMuxes, transformMuxOps, muxOkObject, muxOkTransformed, muxCexObject,
      transformMuxOp, Slot.as_literal, lookupA, TypedBits.as_bool, Kind.is_bool, ubits,
      natToBits]
  · simp [execute, muxOkObject, muxCexObject, validateArgs, loadArgs, execOps, execOp,
      vmRead, vmWrite, TypedBits.any, TypedBits.as_bool, boolTB, Kind.is_bool, ubits,
      natToBits, TypedBits.EMPTY, lookupA]

/-- C8 (counterexample): the VM does *not* execute a callee against the same
VM state as the caller.  The caller initializes register 0 and `Exec`s a
callee whose return slot is register 0: under the spec's same-state semantics
(the `executeSameState` rendering of the spec's words) the call returns the
caller's register value `5 : b8`, but the real VM runs the callee in a fresh
register file and aborts with an uninitialized-return-slot ICE. -/
theorem C8_exec_not_same_state_counterexample :
    execute callerWithState [] = .error .iceReturnSlotNotInitialized ∧
    executeSameState 10 callerWithState [] = .ok (ubits 8 5) := by
  constructor
  · simp [execute, callerWithState, bareCallee, validateArgs, loadArgs, execOps, execOp,
      vmRead, vmWrite, vmReadAll, ubits, natToBits, TypedBits.EMPTY, lookupA]
  · simp [executeSameState, execOpsSameState, execOpSameState, callerWithState, bareCallee,
      validateArgs, loadArgs, execOps, execOp, vmRead, vmWrite, vmReadAll, ubits, natToBits,
      TypedBits.EMPTY, lookupA]

/-- C8 (amended): when the VM executes an `Exec` opcode it reads the argument
slots, runs the callee through the top-level `execute` entry point — i.e.
against a fresh VM state determined only by the callee object and the
argument values, not by the caller's register file — and copies the callee's
return value into the `Exec` destination slot.  The external-function table
supplies the callee. -/
theorem C8_exec_fresh_state_amended (lits : List (Nat × TypedBits)) (ext : List Object)
    (reg : RegFile) (lhs : Slot) (fid : Nat) (argSlots : List Slot)
    (vals : List TypedBits) (func : Object)
    (hargs : vmReadAll lits reg argSlots = .ok vals)
    (hfunc : ext.get? fid = some func) :
    execOp lits ext reg (.exec lhs fid argSlots) =
      (execute func vals).bind (fun res => vmWrite reg lhs res) := by
  simp only [execOp, hargs]
  split
  · next heq =>
      rw [hfunc] at heq
      exact Option.noConfusion heq
  · next f heq =>
      rw [hfunc] at heq
      simp only [Option.some.injEq] at heq
      subst heq
      rcases h : execute func vals with e | res <;> simp [Except.bind, h]

/-- Witness for the amended C8: the `Exec` in `callerWithState` computes
`execute bareCallee []` in a fresh state and would write its result back,
regardless of the caller's register file contents. -/
theorem C8_exec_fresh_state_amended_witness :
    execOp callerWithState.literals callerWithState.externals [(0, ubits 8 5)]
        (.exec (.register 1) 0 []) =
      (execute bareCallee []).bind
        (fun res => vmWrite [(0, ubits 8 5)] (.register 1) res) :=
  C8_exec_fresh_state_amended callerWithState.literals callerWithState.externals
    [(0, ubits 8 5)] (.register 1) 0 [] [] bareCallee rfl
    (by simp [callerWithState])

end RHDL
